import Mathlib

/-!
Verification development for the artifact-hub catalog indexing and
installation engine.

The TypeScript sources are embedded shallowly:

* pure string manipulation (`UrlResolver`, path helpers) becomes functions
  on `List Char` / `String`;
* the dependency resolver becomes a fuel-indexed recursion whose adequacy
  (the fuel bound is never hit) is proved as the termination theorem;
* stateful service methods (`ArtifactService.install`,
  `CatalogService.addCatalog` / `refreshCatalog`) become explicit
  state-passing functions over a `Store` value modelling the SQLite tables
  and the workspace file system, returning an `Outcome` that distinguishes
  normal return, a thrown exception, and divergence (fuel exhaustion), and
  carrying a trace of externally visible events;
* external collaborators that are not part of the sources (HTTP transport,
  auth resolution, the search service, the VS Code window/file-system API)
  are abstracted as oracle fields of an `Env` record, as specified at their
  interface boundary in the design document.
-/

namespace ArtifactHub

/-! ## JS string and regex primitives, on character lists -/

/-- JS `String.prototype.indexOf` for a literal pattern: index of the first
occurrence of `pat` in `s`, `none` when absent (JS returns `-1`). -/
def idxOf? (pat : List Char) : List Char → Option Nat
  | [] => if pat = [] then some 0 else none
  | c :: cs => if pat.isPrefixOf (c :: cs) then some 0 else (idxOf? pat cs).map (· + 1)

/-- JS `String.prototype.includes` for a literal pattern. -/
def containsSub (pat s : List Char) : Bool :=
  (idxOf? pat s).isSome

/-- JS `s.replace(/PAT.*$/, '')` for a literal pattern `PAT`: truncate `s` at
the first occurrence of `pat`.  (The URLs this is applied to contain no
newline, so `.*$` always extends to the end of the string.) -/
def truncAtFirst (pat s : List Char) : List Char :=
  match idxOf? pat s with
  | some i => s.take i
  | none => s

/-- Leftmost position at which `p1` or `p2` starts, as a regex alternation
scanning left to right would find it. -/
def idxOfEither? (p1 p2 : List Char) : List Char → Option Nat
  | [] => if p1 = [] ∨ p2 = [] then some 0 else none
  | c :: cs =>
    if p1.isPrefixOf (c :: cs) ∨ p2.isPrefixOf (c :: cs) then some 0
    else (idxOfEither? p1 p2 cs).map (· + 1)

/-- JS `s.replace(/\/(raw|blob)\/.*$/, '')`-style truncation at the leftmost
occurrence of either literal alternative. -/
def truncAtFirstEither (p1 p2 s : List Char) : List Char :=
  match idxOfEither? p1 p2 s with
  | some i => s.take i
  | none => s

/-- JS `s.replace(/\/$/, '')`: drop a single trailing `'/'`. -/
def stripTrailSlash (s : List Char) : List Char :=
  if s.getLast? = some '/' then s.dropLast else s

/-- JS `String.prototype.replace` with a literal (non-regex) pattern:
replace only the first occurrence of `pat` by `repl`. -/
def replaceFirst (pat repl s : List Char) : List Char :=
  match idxOf? pat s with
  | some i => s.take i ++ repl ++ s.drop (i + pat.length)
  | none => s

/-- JS `String.prototype.lastIndexOf` for a single character. -/
def lastIdxOf? (c : Char) : List Char → Option Nat
  | [] => none
  | x :: xs =>
    match lastIdxOf? c xs with
    | some i => some (i + 1)
    | none => if x = c then some 0 else none

/-- `new URL(s).pathname`, modelled for hierarchical URLs: the authority
after the `"://"` separator ends at the first `'/'`, `'\'`, `'?'` or `'#'`
(for special schemes such as https the WHATWG parser treats a backslash
exactly like a forward slash, so it too ends the host and starts the path,
and backslashes inside the path serialize as `'/'` in the pathname); the
pathname is that path portion up to a `'?'` or `'#'` with each `'\'`
replaced by `'/'`, and `"/"` when the authority is not followed by a path.
`none` models the constructor throwing.  This restricts the WHATWG parser
to absolute `scheme://host[/path]` forms (no scheme-relative or
opaque-path URLs, no percent or dot-segment normalization). -/
def urlPathname? (s : List Char) : Option (List Char) :=
  match idxOf? [':', '/', '/'] s with
  | none => none
  | some i =>
    let rest := s.drop (i + 3)
    let afterHost := rest.dropWhile fun c => !(c == '/' || c == '\\' || c == '?' || c == '#')
    match afterHost with
    | '/' :: _ => some ((afterHost.takeWhile fun c => !(c == '?' || c == '#')).map
        fun c => if c == '\\' then '/' else c)
    | '\\' :: _ => some ((afterHost.takeWhile fun c => !(c == '?' || c == '#')).map
        fun c => if c == '\\' then '/' else c)
    | _ => some ['/']

/-- Character class `[a-z0-9]` under the `i` flag. -/
def isExtChar (c : Char) : Bool :=
  c.toLower.isLower || c.isDigit

/-- JS `/\.[a-z0-9]+$/i.test(p)`: `p` ends in a dot followed by one or more
ASCII alphanumerics. -/
def extTest (p : List Char) : Bool :=
  let rev := p.reverse
  let run := rev.takeWhile isExtChar
  !run.isEmpty && (rev.drop run.length).head? == some '.'

/-- JS `String.prototype.toLowerCase` (ASCII range, which is all the
repository types use). -/
def toLowerStr (s : String) : String :=
  String.mk (s.data.map Char.toLower)

/-! ## Data model (src/models/types.ts) -/

/-- `AuthorSchema`. -/
structure Author where
  name : String
  email : Option String
  url : Option String
deriving DecidableEq, Repr

/-- `RepositorySchema`: the repository descriptor of a catalog. -/
structure Repository where
  type : String
  url : String
  branch : Option String
deriving DecidableEq, Repr

/-- `CompatibilitySchema`. -/
structure Compatibility where
  vscode : Option String
  copilot : Option String
deriving DecidableEq, Repr

/-- `ProfileArtifactRefSchema`. -/
structure ProfileArtifactRef where
  catalogId : String
  artifactId : String
  version : Option String
deriving DecidableEq, Repr

/-- Untyped JSON documents, as fetched from a catalog URL.  A missing object
key models the JS `undefined`; `Json.null` is an explicit JSON `null`. -/
inductive Json where
  | null
  | bool (b : Bool)
  | num (n : Int)
  | str (s : String)
  | arr (elems : List Json)
  | obj (fields : List (String × Json))

/-- `ProfileSchema`. -/
structure Profile where
  id : String
  name : String
  description : Option String
  version : String
  artifacts : List ProfileArtifactRef
deriving DecidableEq, Repr

/-- `CatalogMetadataSchema`: the `catalog` metadata object of a manifest. -/
structure CatalogMetadata where
  id : String
  name : String
  description : String
  author : Author
  repository : Repository
  license : String
  homepage : Option String
  icon : Option String
  tags : Option (List String)
  categories : Option (List String)
deriving DecidableEq, Repr

/-- `ArtifactSchema`: one artifact entry of a manifest. -/
structure Artifact where
  id : String
  type : String
  name : String
  description : String
  path : String
  version : String
  author : Option Author
  category : String
  tags : List String
  keywords : Option (List String)
  language : Option (List String)
  framework : Option (List String)
  useCase : Option (List String)
  difficulty : Option String
  estimatedTime : Option String
  compatibility : Option Compatibility
  dependencies : List String
  supportingFiles : Option (List String)
  metadata : Option Json

/-- `CatalogSchema`: a full manifest document after validation.
(`schemaUrl` embeds the `$schema` key, whose name is not a Lean
identifier.) -/
structure Catalog where
  schemaUrl : Option String
  version : String
  catalog : CatalogMetadata
  artifacts : List Artifact
  profiles : Option (List Profile)

/-- `ArtifactWithSource`: an artifact row as indexed in the store, carrying
its catalog id and the `sourceUrl` derived by the URL resolver. -/
structure ArtifactWithSource extends Artifact where
  catalogId : String
  sourceUrl : String

/-! ## Source URL Resolver (src/services/UrlResolver.ts) -/

/-- The `branch || 'main'` default; JS `||` also treats the empty string as
falsy. -/
def branchOr (branch : Option String) : String :=
  match branch with
  | some b => if b = "" then "main" else b
  | none => "main"

/-- `UrlResolver.resolveGitLabUrl`: strip an existing GitLab raw-path suffix
(slash, dash, slash, `raw`, slash, rest) and a trailing slash, then append
the raw-path segment, the branch (defaulting to `main`) and the artifact
path. -/
def resolveGitLabUrl (repoUrl : String) (branch : Option String) (artifactPath : String) : String :=
  let cleanUrl := String.mk (stripTrailSlash (truncAtFirst "/-/raw/".data repoUrl.data))
  cleanUrl ++ "/-/raw/" ++ branchOr branch ++ "/" ++ artifactPath

/-- `UrlResolver.resolveGitHubUrl`: rewrite the first `github.com` to
`raw.githubusercontent.com` (unless already the raw host), strip an existing
`/raw/...` or `/blob/...` suffix and a trailing slash, then append
`/{branch|main}/{path}`. -/
def resolveGitHubUrl (repoUrl : String) (branch : Option String) (artifactPath : String) : String :=
  let cleanUrl0 :=
    if containsSub "github.com".data repoUrl.data
        && !containsSub "raw.githubusercontent.com".data repoUrl.data then
      String.mk (replaceFirst "github.com".data "raw.githubusercontent.com".data repoUrl.data)
    else repoUrl
  let cleanUrl := String.mk (stripTrailSlash
    (truncAtFirstEither "/raw/".data "/blob/".data cleanUrl0.data))
  cleanUrl ++ "/" ++ branchOr branch ++ "/" ++ artifactPath

/-- `UrlResolver.resolveGenericUrl`: treat the base URL as a directory unless
its URL pathname is a non-root path ending in an extension-like suffix, in
which case use the parent directory; an unparsable URL falls back to naive
concatenation. -/
def resolveGenericUrl (baseUrl artifactPath : String) : String :=
  let cleanUrl := String.mk (stripTrailSlash baseUrl.data)
  match urlPathname? cleanUrl.data with
  | some pathname =>
    if pathname ≠ [] ∧ pathname ≠ ['/'] ∧ extTest pathname then
      let directory := String.mk (cleanUrl.data.take ((lastIdxOf? '/' cleanUrl.data).getD 0))
      directory ++ "/" ++ artifactPath
    else
      cleanUrl ++ "/" ++ artifactPath
  | none => cleanUrl ++ "/" ++ artifactPath

/-- `UrlResolver.resolveArtifactUrl`: dispatch on the lower-cased repository
type. -/
def resolveArtifactUrl (catalogMetadata : CatalogMetadata) (artifact : Artifact) : String :=
  let repo := catalogMetadata.repository
  let t := toLowerStr repo.type
  if t = "gitlab" then resolveGitLabUrl repo.url repo.branch artifact.path
  else if t = "github" then resolveGitHubUrl repo.url repo.branch artifact.path
  else resolveGenericUrl repo.url artifact.path

/-! ## Manifest validator (zod `CatalogSchema`, src/models/types.ts) -/

/-- One zod issue: the path of the offending field and its message. -/
structure Issue where
  path : List String
  message : String
deriving DecidableEq, Repr

/-- The zod name of a JSON value's type, as used in `invalid_type` messages. -/
def typeName : Json → String
  | .null => "null"
  | .bool _ => "boolean"
  | .num _ => "number"
  | .str _ => "string"
  | .arr _ => "array"
  | .obj _ => "object"

/-- Look up an object key; `none` models the JS `undefined`. -/
def getField (fields : List (String × Json)) (k : String) : Option Json :=
  (fields.find? fun f => f.1 == k).map fun f => f.2

/-- A validation computation: either the parsed value or the collected
issues.  zod validates every field and concatenates their issues rather
than stopping at the first. -/
def VRes (α : Type) : Type := Except (List Issue) α

/-- Lift a value. -/
def vpure {α : Type} (a : α) : VRes α := .ok a

/-- Issue-accumulating application, mirroring how `z.object` collects the
issues of all fields in declaration order. -/
def vap {α β : Type} (f : VRes (α → β)) (x : VRes α) : VRes β :=
  match f, x with
  | .ok g, .ok a => .ok (g a)
  | .error e1, .error e2 => .error (e1 ++ e2)
  | .error e1, .ok _ => .error e1
  | .ok _, .error e2 => .error e2

/-- Accumulate a list of validations, keeping element order. -/
def vList {α : Type} : List (VRes α) → VRes (List α)
  | [] => .ok []
  | r :: rs => vap (vap (vpure List.cons) r) (vList rs)

/-- Consume one or more digits, returning the rest. -/
def digitGroup (l : List Char) : Option (List Char) :=
  let g := l.takeWhile Char.isDigit
  if g.isEmpty then none else some (l.drop g.length)

/-- The semver pattern of the schemas: digits, dot, digits, dot, digits,
end of string. -/
def semverOk (s : String) : Bool :=
  match digitGroup s.data with
  | none => false
  | some r1 =>
    match r1 with
    | '.' :: r2 =>
      match digitGroup r2 with
      | none => false
      | some r3 =>
        match r3 with
        | '.' :: r4 =>
          match digitGroup r4 with
          | none => false
          | some r5 => r5.isEmpty
        | _ => false
    | _ => false

/-- The slug pattern (lowercase letters, digits, hyphens; non-empty). -/
def slugOk (s : String) : Bool :=
  !s.isEmpty && s.data.all fun c => c.isLower || c.isDigit || c == '-'

/-- `z.string().url()` (`new URL` succeeding), restricted as in
`urlPathname?` to the hierarchical URLs this program handles. -/
def urlOk (s : String) : Bool :=
  containsSub [':', '/', '/'] s.data

/-- `z.string().email()`, approximated by the presence of an `@`, which is
all the theorems rely on. -/
def emailOk (s : String) : Bool :=
  containsSub ['@'] s.data

/-- `.min(n)` on strings, with zod's default message. -/
def ckMin (n : Nat) (s : String) : Option String :=
  if s.length < n then
    some ("String must contain at least " ++ toString n ++ " character(s)")
  else none

/-- `.max(n)` on strings, with zod's default message. -/
def ckMax (n : Nat) (s : String) : Option String :=
  if s.length > n then
    some ("String must contain at most " ++ toString n ++ " character(s)")
  else none

/-- `.regex(...)`: zod's default message for a failed regex is `Invalid`,
with no mention of the field. -/
def ckRegex (ok : String → Bool) (s : String) : Option String :=
  if ok s then none else some "Invalid"

/-- `.url()`, default message `Invalid url`. -/
def ckUrl (s : String) : Option String :=
  if urlOk s then none else some "Invalid url"

/-- `.email()`, default message `Invalid email`. -/
def ckEmail (s : String) : Option String :=
  if emailOk s then none else some "Invalid email"

/-- `z.string()` with a list of chained checks; zod runs every check of a
string and collects each failure. -/
def vStr (p : List String) (checks : List (String → Option String)) (j : Json) : VRes String :=
  match j with
  | .str s =>
    match checks.filterMap fun ck => (ck s).map fun m => Issue.mk p m with
    | [] => .ok s
    | issues => .error issues
  | _ => .error [⟨p, "Expected string, received " ++ typeName j⟩]

/-- A required object field: a missing key yields zod's `Required`. -/
def vField {α : Type} (p : List String) (fields : List (String × Json)) (k : String)
    (v : List String → Json → VRes α) : VRes α :=
  match getField fields k with
  | none => .error [⟨p ++ [k], "Required"⟩]
  | some j => v (p ++ [k]) j

/-- An `.optional()` field: a missing key is accepted as `none`. -/
def vFieldOpt {α : Type} (p : List String) (fields : List (String × Json)) (k : String)
    (v : List String → Json → VRes α) : VRes (Option α) :=
  match getField fields k with
  | none => .ok none
  | some j =>
    match v (p ++ [k]) j with
    | .ok a => .ok (some a)
    | .error e => .error e

/-- A `.default(d)` field: a missing key yields the default. -/
def vFieldDefault {α : Type} (p : List String) (fields : List (String × Json)) (k : String)
    (v : List String → Json → VRes α) (d : α) : VRes α :=
  match getField fields k with
  | none => .ok d
  | some j => v (p ++ [k]) j

/-- `z.object`: a non-object is a single `invalid_type` issue. -/
def vObj {α : Type} (p : List String) (j : Json) (f : List (String × Json) → VRes α) : VRes α :=
  match j with
  | .obj fields => f fields
  | _ => .error [⟨p, "Expected object, received " ++ typeName j⟩]

/-- `z.array(elem)` with optional `.min`/`.max`: size issues first, then the
issues of every element, each under its index. -/
def vArr {α : Type} (p : List String) (minLen maxLen : Option Nat)
    (elemV : List String → Json → VRes α) (j : Json) : VRes (List α) :=
  match j with
  | .arr elems =>
    let sizeIssues :=
      (match minLen with
       | some n =>
         if elems.length < n then
           [Issue.mk p ("Array must contain at least " ++ toString n ++ " element(s)")]
         else []
       | none => []) ++
      (match maxLen with
       | some n =>
         if elems.length > n then
           [Issue.mk p ("Array must contain at most " ++ toString n ++ " element(s)")]
         else []
       | none => [])
    match sizeIssues, vList (elems.enum.map fun e => elemV (p ++ [toString e.1]) e.2) with
    | [], r => r
    | si, .ok _ => .error si
    | si, .error es => .error (si ++ es)
  | _ => .error [⟨p, "Expected array, received " ++ typeName j⟩]

/-- `z.array(z.string())`. -/
def vStrArr (p : List String) (minLen maxLen : Option Nat) (j : Json) : VRes (List String) :=
  vArr p minLen maxLen (fun p j => vStr p [] j) j

/-- `AuthorSchema` validator. -/
def vAuthor (p : List String) (j : Json) : VRes Author :=
  vObj p j fun o =>
    vap (vap (vap (vpure Author.mk)
      (vField p o "name" fun p j => vStr p [] j))
      (vFieldOpt p o "email" fun p j => vStr p [ckEmail] j))
      (vFieldOpt p o "url" fun p j => vStr p [ckUrl] j)

/-- `RepositorySchema` validator. -/
def vRepository (p : List String) (j : Json) : VRes Repository :=
  vObj p j fun o =>
    vap (vap (vap (vpure Repository.mk)
      (vField p o "type" fun p j => vStr p [] j))
      (vField p o "url" fun p j => vStr p [ckUrl] j))
      (vFieldOpt p o "branch" fun p j => vStr p [] j)

/-- `CompatibilitySchema` validator. -/
def vCompatibility (p : List String) (j : Json) : VRes Compatibility :=
  vObj p j fun o =>
    vap (vap (vpure Compatibility.mk)
      (vFieldOpt p o "vscode" fun p j => vStr p [] j))
      (vFieldOpt p o "copilot" fun p j => vStr p [] j)

/-- The values of `ArtifactTypeSchema`. -/
def artifactTypes : List String :=
  ["chatmode", "instructions", "prompt", "task", "profile"]

/-- `ArtifactTypeSchema` (`z.enum`) validator, with zod's enum message. -/
def vArtifactType (p : List String) (j : Json) : VRes String :=
  match j with
  | .str s =>
    if s ∈ artifactTypes then .ok s
    else
      .error [⟨p, "Invalid enum value. Expected 'chatmode' | 'instructions' | 'prompt' | 'task' | 'profile', received '" ++ s ++ "'"⟩]
  | _ =>
    .error [⟨p, "Expected 'chatmode' | 'instructions' | 'prompt' | 'task' | 'profile', received " ++ typeName j⟩]

/-- `z.record(z.any())`: any object passes through. -/
def vRecord (p : List String) (j : Json) : VRes Json :=
  match j with
  | .obj _ => .ok j
  | _ => .error [⟨p, "Expected object, received " ++ typeName j⟩]

/-- `ArtifactSchema` validator, fields in declaration order. -/
def vArtifact (p : List String) (j : Json) : VRes Artifact :=
  vObj p j fun o =>
    vap (vap (vap (vap (vap (vap (vap (vap (vap (vap (vap (vap (vap (vap (vap (vap (vap (vap (vap (vpure Artifact.mk)
      (vField p o "id" fun p j => vStr p [ckRegex slugOk] j))
      (vField p o "type" vArtifactType))
      (vField p o "name" fun p j => vStr p [ckMin 1, ckMax 100] j))
      (vField p o "description" fun p j => vStr p [ckMin 1, ckMax 500] j))
      (vField p o "path" fun p j => vStr p [] j))
      (vField p o "version" fun p j => vStr p [ckRegex semverOk] j))
      (vFieldOpt p o "author" vAuthor))
      (vField p o "category" fun p j => vStr p [] j))
      (vField p o "tags" fun p j => vStrArr p (some 1) (some 20) j))
      (vFieldOpt p o "keywords" fun p j => vStrArr p none none j))
      (vFieldOpt p o "language" fun p j => vStrArr p none none j))
      (vFieldOpt p o "framework" fun p j => vStrArr p none none j))
      (vFieldOpt p o "useCase" fun p j => vStrArr p none none j))
      (vFieldOpt p o "difficulty" fun p j => vStr p [] j))
      (vFieldOpt p o "estimatedTime" fun p j => vStr p [] j))
      (vFieldOpt p o "compatibility" vCompatibility))
      (vFieldDefault p o "dependencies" (fun p j => vStrArr p none none j) []))
      (vFieldOpt p o "supportingFiles" fun p j => vStrArr p none none j))
      (vFieldOpt p o "metadata" vRecord)

/-- `CatalogMetadataSchema` validator. -/
def vCatalogMeta (p : List String) (j : Json) : VRes CatalogMetadata :=
  vObj p j fun o =>
    vap (vap (vap (vap (vap (vap (vap (vap (vap (vap (vpure CatalogMetadata.mk)
      (vField p o "id" fun p j => vStr p [ckRegex slugOk] j))
      (vField p o "name" fun p j => vStr p [ckMin 1, ckMax 100] j))
      (vField p o "description" fun p j => vStr p [ckMin 1, ckMax 500] j))
      (vField p o "author" vAuthor))
      (vField p o "repository" vRepository))
      (vField p o "license" fun p j => vStr p [] j))
      (vFieldOpt p o "homepage" fun p j => vStr p [ckUrl] j))
      (vFieldOpt p o "icon" fun p j => vStr p [] j))
      (vFieldOpt p o "tags" fun p j => vStrArr p none none j))
      (vFieldOpt p o "categories" fun p j => vStrArr p none none j)

/-- `ProfileArtifactRefSchema` validator. -/
def vProfileRef (p : List String) (j : Json) : VRes ProfileArtifactRef :=
  vObj p j fun o =>
    vap (vap (vap (vpure ProfileArtifactRef.mk)
      (vField p o "catalogId" fun p j => vStr p [] j))
      (vField p o "artifactId" fun p j => vStr p [] j))
      (vFieldOpt p o "version" fun p j => vStr p [] j)

/-- `ProfileSchema` validator. -/
def vProfile (p : List String) (j : Json) : VRes Profile :=
  vObj p j fun o =>
    vap (vap (vap (vap (vap (vpure Profile.mk)
      (vField p o "id" fun p j => vStr p [ckRegex slugOk] j))
      (vField p o "name" fun p j => vStr p [] j))
      (vFieldOpt p o "description" fun p j => vStr p [] j))
      (vField p o "version" fun p j => vStr p [ckRegex semverOk] j))
      (vField p o "artifacts" fun p j => vArr p none none vProfileRef j)

/-- `CatalogSchema.parse`: the top-level manifest validator, keys in
declaration order. -/
def vCatalog (j : Json) : VRes Catalog :=
  vObj [] j fun o =>
    vap (vap (vap (vap (vap (vpure Catalog.mk)
      (vFieldOpt [] o "$schema" fun p j => vStr p [ckUrl] j))
      (vField [] o "version" fun p j => vStr p [ckRegex semverOk] j))
      (vField [] o "catalog" vCatalogMeta))
      (vField [] o "artifacts" fun p j => vArr p none none vArtifact j))
      (vFieldOpt [] o "profiles" fun p j => vArr p none none vProfile j)

/-! ## Store rows and the dependency resolver (src/services/ArtifactService.ts) -/

/-- One row of the `installations` table. -/
structure InstRow where
  artifactId : String
  catalogId : String
  version : String
  installedPath : String
deriving DecidableEq, Repr

/-- `ArtifactService.getInstallation`: `SELECT ... FROM installations WHERE
catalog_id = ? AND artifact_id = ?`. -/
def getInstallation (installations : List InstRow) (catalogId artifactId : String) :
    Option InstRow :=
  installations.find? fun r => r.catalogId == catalogId && r.artifactId == artifactId

/-- Modelled from the spec: `SearchService.getArtifact(catalogId, artifactId)`
(src/services/SearchService.ts is not among the sources) — get-artifact by
composite key over the artifact rows of the store. -/
def getArtifact (artifacts : List ArtifactWithSource) (catalogId artifactId : String) :
    Option ArtifactWithSource :=
  artifacts.find? fun a => a.catalogId == catalogId && a.id == artifactId

/-- The read-only context of one dependency resolution: the artifact and
installation rows of the store, and the global free-text search.  Modelled
from the spec: `SearchService.search` (not among the sources) ranks the
stored artifact rows; `searchMatch` abstracts its matching and ranking, so
that the top hit for query `q` is the first row satisfying `searchMatch q`
(an arbitrary predicate, so any ranking is representable). -/
structure ResolveCtx where
  artifacts : List ArtifactWithSource
  installations : List InstRow
  searchMatch : String → ArtifactWithSource → Bool

/-- Dependency lookup inside `resolve`: the dependent's own catalog first,
then the top hit of a global search for the id. -/
def lookupDep (ctx : ResolveCtx) (catalogId depId : String) : Option ArtifactWithSource :=
  match getArtifact ctx.artifacts catalogId depId with
  | some dep => some dep
  | none => ctx.artifacts.find? (ctx.searchMatch depId)

/-- The message of the `Error` thrown when a dependency id resolves
nowhere. -/
def depNotFoundMsg (depId : String) : String :=
  "Dependency not found: " ++ depId

/-- The mutable state of `resolveDependencies`: the `visited` set (kept as a
list in insertion order) and the accumulated `deps` array. -/
structure RState where
  visited : List String
  deps : List ArtifactWithSource

/-- The recursive `resolve` closure of `ArtifactService.resolveDependencies`,
merged with the `for` loops that drive it: `resolveList ctx cat n [d1, ..., dk] st`
runs `resolve(d1); ...; resolve(dk)` starting from state `st`.  `n` is fuel
bounding the depth of the recursion (which the JS leaves unbounded): `none`
models divergence, and the C2 theorem proves the standard fuel is never
exhausted.  `some (.err e)` models a thrown `Error` with message `e`. -/
def resolveList (ctx : ResolveCtx) (catalogId : String) :
    Nat → List String → RState → Option (Except String RState)
  | _, [], st => some (.ok st)
  | 0, _ :: _, _ => none
  | n + 1, depId :: rest, st =>
    if depId ∈ st.visited then
      -- `if (visited.has(depId)) return; // Avoid cycles`
      resolveList ctx catalogId (n + 1) rest st
    else
      let st1 : RState := ⟨st.visited ++ [depId], st.deps⟩
      match lookupDep ctx catalogId depId with
      | none => some (.error (depNotFoundMsg depId))
      | some dep =>
        if (getInstallation ctx.installations dep.catalogId dep.id).isSome then
          -- `if (installed) return; // Skip already installed`
          resolveList ctx catalogId (n + 1) rest st1
        else
          match resolveList ctx catalogId n dep.dependencies st1 with
          | some (.ok st2) =>
            -- `deps.push(dep)` after the transitive dependencies resolved
            resolveList ctx catalogId (n + 1) rest ⟨st2.visited, st2.deps ++ [dep]⟩
          | other => other
  termination_by n ds _ => (n, ds.length)

/-- `ArtifactService.resolveDependencies`. -/
def resolveDependencies (ctx : ResolveCtx) (fuel : Nat) (artifact : ArtifactWithSource) :
    Option (Except String (List ArtifactWithSource)) :=
  if artifact.dependencies.isEmpty then some (.ok [])
  else
    match resolveList ctx artifact.catalogId fuel artifact.dependencies ⟨[], []⟩ with
    | some (.ok st) => some (.ok st.deps)
    | some (.error e) => some (.error e)
    | none => none

/-- Every dependency id the resolver can ever visit: the target's direct
dependency ids together with the dependency ids of every stored artifact row
(each resolved dependency is itself a stored row). -/
def allDepIds (ctx : ResolveCtx) (artifact : ArtifactWithSource) : List String :=
  (artifact.dependencies ++ (ctx.artifacts.map fun a => a.dependencies).flatten).dedup

/-- The standard fuel for `resolveDependencies`: strictly more than the
number of distinct dependency ids, which bounds the depth of the `resolve`
recursion because every nested call adds a fresh id to `visited`. -/
def resolveFuel (ctx : ResolveCtx) (artifact : ArtifactWithSource) : Nat :=
  (allDepIds ctx artifact).length + 1

/-- The number of ids of `all` not yet visited: the measure that shrinks at
every nested `resolve` call. -/
def remaining (all visited : List String) : Nat :=
  (all.filter fun i => decide (i ∉ visited)).length

/-- Whether the installation row keyed `(catalogId, i)` exists — the
"already installed" test the resolver applies to a dependency found in the
dependent's catalog. -/
def Inst (ctx : ResolveCtx) (catalogId i : String) : Prop :=
  (getInstallation ctx.installations catalogId i).isSome

/-- The dependency edge relation of the stored catalog: `i` depends on `j`
when the artifact with id `i` of the catalog lists `j` among its
dependency ids. -/
def Edge (ctx : ResolveCtx) (catalogId : String) (i j : String) : Prop :=
  ∃ a, getArtifact ctx.artifacts catalogId i = some a ∧ j ∈ a.dependencies

/-- The resolver invariant, relative to the ids `S` of the `resolve` calls
currently on the stack: pushed ids are visited and pairwise distinct; every
visited id is pushed, installed, or still on the stack; and every
dependency of a pushed artifact is pushed earlier, installed, or on the
stack. -/
structure RInv (ctx : ResolveCtx) (catalogId : String) (st : RState) (S : List String) : Prop where
  idsSub : ∀ a ∈ st.deps, a.id ∈ st.visited
  idsNodup : (st.deps.map fun a => a.id).Nodup
  visitedCases : ∀ v ∈ st.visited, (∃ a ∈ st.deps, a.id = v) ∨ Inst ctx catalogId v ∨ v ∈ S
  stackSub : ∀ s ∈ S, s ∈ st.visited
  ordered : ∀ l₁ x l₂, st.deps = l₁ ++ x :: l₂ → ∀ d ∈ x.dependencies,
    (∃ a ∈ l₁, a.id = d) ∨ Inst ctx catalogId d ∨ d ∈ S

/-- What one `resolveList` run adds to the state: freshly visited ids (each
reachable from one of the processed ids along dependency edges), and pushed
artifacts that are freshly visited, not installed, and stored in the
dependent's catalog under their own id. -/
structure RStep (ctx : ResolveCtx) (catalogId : String) (ds : List String)
    (st st' : RState) : Prop where
  visited_ext : ∃ Δ, st'.visited = st.visited ++ Δ ∧ (∀ v ∈ Δ, v ∉ st.visited) ∧
    ∀ v ∈ Δ, ∃ d ∈ ds, Relation.ReflTransGen (Edge ctx catalogId) d v
  deps_ext : ∃ Δd, st'.deps = st.deps ++ Δd ∧
    ∀ a ∈ Δd, a.id ∈ st'.visited ∧ a.id ∉ st.visited ∧ ¬ Inst ctx catalogId a.id
      ∧ getArtifact ctx.artifacts catalogId a.id = some a
  processed : ∀ d ∈ ds, d ∈ st'.visited

/-! ## Store, oracles, and CatalogService (src/services/CatalogService.ts) -/

/-- One row of the `catalogs` table.  (The `last_fetched`/`created_at`/
`updated_at` timestamps carry no claim content and are not modelled; the
`metadata` column holds the JSON-serialized catalog metadata, modelled as
the value itself.) -/
structure CatRow where
  id : String
  url : String
  enabled : Bool
  metadata : CatalogMetadata
  status : String
  error : Option String

/-- The persistent state: the three SQLite tables and the workspace file
system (a map from path to written content). -/
structure Store where
  catalogs : List CatRow
  artifacts : List ArtifactWithSource
  installations : List InstRow
  fs : List (String × String)

/-- Externally visible events of a run, in order: artifact-content
downloads, file writes, and installation-record inserts. -/
inductive Event where
  | httpGet (url : String)
  | fileWrite (path : String)
  | recordInstall (catalogId artifactId path : String)
deriving DecidableEq, Repr

/-- The result of a stateful service call: normal return, a thrown JS
`Error` with its message, or divergence (only reachable when the fuel
modelling the unbounded `install` recursion runs out). -/
inductive Outcome (α : Type) where
  | div
  | thrown (e : String) (st : Store) (tr : List Event)
  | ret (a : α) (st : Store) (tr : List Event)

/-- The `action` strings of a `ConflictResolution`. -/
inductive ConflictAction where
  | keep
  | replace
  | rename
deriving DecidableEq, Repr

/-- `ConflictResolution` (src/models/types.ts). -/
structure ConflictResolution where
  action : ConflictAction
  newName : Option String
deriving DecidableEq, Repr

/-- `CatalogRepoConfig` (the `auth` field is resolved through the
`Env.authErr` oracle). -/
structure CatalogRepoConfig where
  id : String
  url : String
  enabled : Bool
deriving DecidableEq, Repr

/-- The external collaborators, as specified at their interface boundary:
`fetchJson`/`http` the HTTP transport (content or thrown message),
`authErr` the auth resolution per config id (`some e` models
`resolveAuth` throwing `e`), `conflictChoice` the conflict prompt keyed by
artifact name and target path (`none` models dismissal), `writeErr` the
file-system write oracle, `workspaceRoot` the first workspace folder,
`searchMatch` the global search as in `ResolveCtx`, and the
`ARTIFACT_PATHS` / `ARTIFACT_EXTENSIONS` mappings of src/config/constants
(not among the sources), modelled from the spec as a fixed
type-to-subdirectory and type-to-extension mapping. -/
structure Env where
  fetchJson : String → Except String Json
  http : String → Except String String
  authErr : String → Option String
  conflictChoice : String → String → Option ConflictResolution
  writeErr : String → Option String
  workspaceRoot : Option String
  searchMatch : String → ArtifactWithSource → Bool
  artifactPathsMap : String → String
  artifactExtsMap : String → String

/-- Whether a file exists at `p` (`stat` succeeding). -/
def fsHas (st : Store) (p : String) : Bool :=
  st.fs.any fun f => f.1 == p

/-- Write (or overwrite) the file at `p`. -/
def fsWrite (st : Store) (p content : String) : Store :=
  { st with fs := (st.fs.filter fun f => f.1 != p) ++ [(p, content)] }

/-- `INSERT OR REPLACE INTO installations`: the row keyed
`(artifact_id, catalog_id)` is replaced. -/
def recordInstallation (st : Store) (artifact : ArtifactWithSource) (targetPath : String) : Store :=
  { st with installations :=
      (st.installations.filter fun r =>
        !(r.artifactId == artifact.id && r.catalogId == artifact.catalogId))
      ++ [⟨artifact.id, artifact.catalogId, artifact.version, targetPath⟩] }

/-- `CatalogService.fetchCatalog`: fetch the JSON document and validate it;
a `ZodError` becomes one `Invalid catalog format:` message joining the
`message` of every issue; transport errors are rethrown unwrapped. -/
def fetchCatalog (env : Env) (url : String) : Except String Catalog :=
  match env.fetchJson url with
  | .error e => .error e
  | .ok data =>
    match vCatalog data with
    | .ok c => .ok c
    | .error issues =>
      .error ("Invalid catalog format: "
        ++ String.intercalate ", " (issues.map fun i => i.message))

/-- `CatalogService.indexArtifacts`: one INSERT per artifact of the
manifest, with `source_url` resolved by the URL resolver; a duplicate
`(id, catalog_id)` violates the primary key and aborts the enclosing
transaction.  `acc` holds the rows already in the table. -/
def insertArtifactRows (catalogId : String) (cmeta : CatalogMetadata) :
    List Artifact → List ArtifactWithSource → Except String (List ArtifactWithSource)
  | [], acc => .ok acc
  | a :: rest, acc =>
    if acc.any fun r => r.id == a.id && r.catalogId == catalogId then
      .error "UNIQUE constraint failed: artifacts.id, artifacts.catalog_id"
    else
      insertArtifactRows catalogId cmeta rest
        (acc ++ [{ toArtifact := a, catalogId := catalogId,
                   sourceUrl := resolveArtifactUrl cmeta a }])

/-- `CatalogService.addCatalog`: resolve auth, fetch and validate, then in
one transaction `INSERT OR REPLACE` the catalog row — the implicit delete
of any row conflicting on the id primary key or the unique `url` cascades
to that catalog\'s artifacts and installations — and index the manifest\'s
artifacts. -/
def addCatalog (env : Env) (config : CatalogRepoConfig) (st : Store) : Outcome Unit :=
  match env.authErr config.id with
  | some e => .thrown e st []
  | none =>
    match fetchCatalog env config.url with
    | .error e => .thrown e st []
    | .ok catalog =>
      let replacedIds :=
        (st.catalogs.filter fun r => r.id == config.id || r.url == config.url).map fun r => r.id
      let keptCatalogs := st.catalogs.filter fun r => !(r.id == config.id || r.url == config.url)
      let newRow : CatRow :=
        { id := config.id, url := config.url, enabled := config.enabled,
          metadata := catalog.catalog, status := "healthy", error := none }
      let keptArtifacts := st.artifacts.filter fun a => !(replacedIds.contains a.catalogId)
      let keptInstalls := st.installations.filter fun r => !(replacedIds.contains r.catalogId)
      match insertArtifactRows config.id catalog.catalog catalog.artifacts keptArtifacts with
      | .error e => .thrown e st []
      | .ok rows =>
        .ret () { st with catalogs := keptCatalogs ++ [newRow],
                          artifacts := rows, installations := keptInstalls } []

/-- `CatalogService.refreshCatalog`: mark the catalog `updating`; resolve
auth and fetch; on success, in one transaction update the metadata, set
`status = healthy` and clear `error`, delete the catalog\'s artifact rows
(cascading to the installations that referenced them) and re-index; on any
failure, record `status = error` with the message in the `error` column
and rethrow. -/
def refreshCatalog (env : Env) (catalogId : String) (config : CatalogRepoConfig)
    (st : Store) : Outcome Unit :=
  let st1 : Store := { st with catalogs := st.catalogs.map fun r =>
    if r.id == catalogId then { r with status := "updating" } else r }
  let errorOut := fun (e : String) =>
    Outcome.thrown e { st1 with catalogs := st1.catalogs.map fun r =>
      if r.id == catalogId then { r with status := "error", error := some e } else r } []
  match env.authErr config.id with
  | some e => errorOut e
  | none =>
    match fetchCatalog env config.url with
    | .error e => errorOut e
    | .ok catalog =>
      let keptArtifacts := st1.artifacts.filter fun a => !(a.catalogId == catalogId)
      match insertArtifactRows catalogId catalog.catalog catalog.artifacts keptArtifacts with
      | .error e => errorOut e
      | .ok rows =>
        .ret () { st1 with
          catalogs := st1.catalogs.map fun r =>
            if r.id == catalogId then
              { r with metadata := catalog.catalog, status := "healthy", error := none }
            else r,
          artifacts := rows,
          installations := st1.installations.filter fun r =>
            !(r.catalogId == catalogId
              && st1.artifacts.any fun a => a.catalogId == catalogId && a.id == r.artifactId) } []

/-- The sweep loop of `refreshAll`: per-catalog failures are caught and
logged, the sweep continues. -/
def refreshAllGo (env : Env) : List CatalogRepoConfig → Store → Store
  | [], st => st
  | c :: rest, st =>
    match refreshCatalog env c.id c st with
    | .ret _ st1 _ => refreshAllGo env rest st1
    | .thrown _ st1 _ => refreshAllGo env rest st1
    | .div => st

/-- `CatalogService.refreshAll`: refresh the enabled catalogs in order. -/
def refreshAll (env : Env) (configs : List CatalogRepoConfig) (st : Store) : Store :=
  refreshAllGo env (configs.filter fun c => c.enabled) st

/-! ## Path helpers and the Installation Manager (src/services/ArtifactService.ts) -/

/-- `InstallResult` (src/models/types.ts). -/
structure InstallResult where
  success : Bool
  artifact : ArtifactWithSource
  path : String
  error : Option String

/-- POSIX `path.join` for two already-normalized segments (no `..` or `.`
segments occur in the paths this program joins). -/
def pathJoin (a b : String) : String :=
  if a = "" then b
  else if b = "" then a
  else if a.data.getLast? = some '/' then a ++ b
  else a ++ "/" ++ b

/-- POSIX `path.dirname` for paths without a trailing slash. -/
def pathDirname (p : String) : String :=
  match lastIdxOf? '/' p.data with
  | none => "."
  | some 0 => "/"
  | some i => String.mk (p.data.take i)

/-- POSIX `path.extname`: from the last dot of the basename, empty for a
leading dot or no dot. -/
def pathExtname (p : String) : String :=
  let base :=
    match lastIdxOf? '/' p.data with
    | none => p.data
    | some i => p.data.drop (i + 1)
  match lastIdxOf? '.' base with
  | none => ""
  | some 0 => ""
  | some i => String.mk (base.drop i)

/-- One maximal `[^/]+` segment: `none` when empty. -/
def parseSeg (s : List Char) : Option (List Char × List Char) :=
  let seg := s.takeWhile fun c => c != '/'
  if seg.isEmpty then none else some (seg, s.drop seg.length)

/-- Expect a literal prefix, returning the rest. -/
def expectLit (lit s : List Char) : Option (List Char) :=
  if lit.isPrefixOf s then some (s.drop lit.length) else none

/-- The `https?://` scheme prefix of both fallback regexes. -/
def parseScheme (s : List Char) : Option (List Char) :=
  match expectLit "https://".data s with
  | some r => some r
  | none => expectLit "http://".data s

/-- The GitLab fallback regex of `getCatalogBaseUrl`
(scheme, host, org, repo, the raw-path literal, branch): the matched
prefix, or `none`. -/
def matchGitLabBase (s : List Char) : Option (List Char) := do
  let r1 ← parseScheme s
  let (_, r2) ← parseSeg r1
  let r3 ← expectLit ['/'] r2
  let (_, r4) ← parseSeg r3
  let r5 ← expectLit ['/'] r4
  let (_, r6) ← parseSeg r5
  let r7 ← expectLit "/-/raw/".data r6
  let (_, r8) ← parseSeg r7
  some (s.take (s.length - r8.length))

/-- The GitHub fallback regex of `getCatalogBaseUrl`
(`https?://raw.githubusercontent.com/org/repo/branch`). -/
def matchGitHubBase (s : List Char) : Option (List Char) := do
  let r1 ← parseScheme s
  let r2 ← expectLit "raw.githubusercontent.com".data r1
  let r3 ← expectLit ['/'] r2
  let (_, r4) ← parseSeg r3
  let r5 ← expectLit ['/'] r4
  let (_, r6) ← parseSeg r5
  let r7 ← expectLit ['/'] r6
  let (_, r8) ← parseSeg r7
  some (s.take (s.length - r8.length))

/-- The fallback chain of `getCatalogBaseUrl` when the artifact path does
not occur in the source URL: the GitLab raw-path prefix, the GitHub
raw-content prefix, then everything before the last slash (the empty
string when there is none, as `substring(0, -1)` yields). -/
def getCatalogBaseUrlFallback (sourceUrl : String) : String :=
  match matchGitLabBase sourceUrl.data with
  | some m => String.mk m
  | none =>
    match matchGitHubBase sourceUrl.data with
    | some m => String.mk m
    | none =>
      match lastIdxOf? '/' sourceUrl.data with
      | some i => String.mk (sourceUrl.data.take i)
      | none => ""

/-- `ArtifactService.getCatalogBaseUrl`: strip the artifact path from the
source URL when it occurs at a positive index, else fall back. -/
def getCatalogBaseUrl (sourceUrl artifactPath : String) : String :=
  match idxOf? artifactPath.data sourceUrl.data with
  | some i =>
    if 0 < i then String.mk (stripTrailSlash (sourceUrl.data.take i))
    else getCatalogBaseUrlFallback sourceUrl
  | none => getCatalogBaseUrlFallback sourceUrl

/-- The final `parts[parts.length - 1] || fullPath` of
`extractRelativePath`. -/
def extractRelLast (parts : List String) (fullPath : String) : String :=
  match parts.getLast? with
  | some f => if f = "" then fullPath else f
  | none => fullPath

/-- The plain-`artifactId` branch of `extractRelativePath`. -/
def extractRelAfter (parts : List String) (artifactId fullPath : String) : String :=
  match parts.findIdx? fun part => part == artifactId with
  | some i =>
    if i < parts.length - 1 then String.intercalate "/" (parts.drop (i + 1))
    else extractRelLast parts fullPath
  | none => extractRelLast parts fullPath

/-- `ArtifactService.extractRelativePath`: the path after the
`.artifactId` (or `artifactId`) directory, else the bare filename. -/
def extractRelativePath (fullPath artifactId : String) : String :=
  let parts := fullPath.splitOn "/"
  let dotArtifactId := "." ++ artifactId
  match parts.findIdx? fun part => part == dotArtifactId with
  | some i =>
    if i < parts.length - 1 then String.intercalate "/" (parts.drop (i + 1))
    else extractRelAfter parts artifactId fullPath
  | none => extractRelAfter parts artifactId fullPath

/-- `ArtifactService.getInstallPath`: workspace root, install root, the
type subdirectory, and `id + extension`. -/
def getInstallPath (env : Env) (wsRoot : String) (artifact : ArtifactWithSource)
    (installRoot : String) : String :=
  pathJoin (pathJoin (pathJoin wsRoot installRoot) (env.artifactPathsMap artifact.type))
    (artifact.id ++ env.artifactExtsMap artifact.type)

/-- The per-file loop of `installSupportingFiles`: each file is fetched
from the catalog base URL and written under the supporting directory; any
failure is a warning and the loop continues. -/
def supportingLoop (env : Env) (artifactId catalogBaseUrl supportingDir : String) :
    List String → Store → Store × List Event
  | [], st => (st, [])
  | filePath :: rest, st =>
    let fileUrl := catalogBaseUrl ++ "/" ++ filePath
    match env.http fileUrl with
    | .error _ =>
      let (st1, tr) := supportingLoop env artifactId catalogBaseUrl supportingDir rest st
      (st1, .httpGet fileUrl :: tr)
    | .ok content =>
      let relativePath := extractRelativePath filePath artifactId
      let target := pathJoin supportingDir relativePath
      match env.writeErr target with
      | some _ =>
        let (st1, tr) := supportingLoop env artifactId catalogBaseUrl supportingDir rest st
        (st1, .httpGet fileUrl :: tr)
      | none =>
        let (st1, tr) := supportingLoop env artifactId catalogBaseUrl supportingDir rest
          (fsWrite st target content)
        (st1, .httpGet fileUrl :: .fileWrite target :: tr)

/-- `ArtifactService.installSupportingFiles`: a no-op without supporting
files; otherwise derive the catalog base URL, require a workspace root
(throwing without one), and run the per-file loop under
`.github/.artifactId`. -/
def installSupportingStep (env : Env) (artifact : ArtifactWithSource)
    (st : Store) : Outcome Unit :=
  match artifact.supportingFiles with
  | none => .ret () st []
  | some [] => .ret () st []
  | some files =>
    let catalogBaseUrl := getCatalogBaseUrl artifact.sourceUrl artifact.path
    match env.workspaceRoot with
    | none => .thrown "No workspace folder open" st []
    | some wsRoot =>
      let supportingDir := pathJoin (pathJoin wsRoot ".github") ("." ++ artifact.id)
      let (st1, tr) := supportingLoop env artifact.id catalogBaseUrl supportingDir files st
      .ret () st1 tr

/-- `ArtifactService.performInstall`: resolve auth (outside the inner
try/catch — a failure here is thrown to the caller), then inside it fetch
the main content, write the main file, install supporting files
(a thrown workspace error there is caught into a failed result), record
the installation, and return a success result; any caught failure becomes
a failed result carrying the target path and the message. -/
def performInstall (env : Env) (artifact : ArtifactWithSource) (targetPath : String)
    (repoConfig : Option CatalogRepoConfig) (st : Store) : Outcome InstallResult :=
  match (match repoConfig with | some cfg => env.authErr cfg.id | none => none) with
  | some e => .thrown e st []
  | none =>
    match env.http artifact.sourceUrl with
    | .error e =>
      .ret { success := false, artifact := artifact, path := targetPath, error := some e }
        st [.httpGet artifact.sourceUrl]
    | .ok content =>
      match env.writeErr targetPath with
      | some e =>
        .ret { success := false, artifact := artifact, path := targetPath, error := some e }
          st [.httpGet artifact.sourceUrl]
      | none =>
        match installSupportingStep env artifact (fsWrite st targetPath content) with
        | .div => .div
        | .thrown e st2 tr2 =>
          .ret { success := false, artifact := artifact, path := targetPath, error := some e }
            st2 ([.httpGet artifact.sourceUrl, .fileWrite targetPath] ++ tr2)
        | .ret _ st2 tr2 =>
          .ret { success := true, artifact := artifact, path := targetPath, error := none }
            (recordInstallation st2 artifact targetPath)
            ([.httpGet artifact.sourceUrl, .fileWrite targetPath] ++ tr2
              ++ [.recordInstall artifact.catalogId artifact.id targetPath])

mutual
/-- `ArtifactService.install`: the whole body runs in a try/catch whose
catch converts any thrown error into a failed result with an empty path.
The fuel `n` models the unbounded JS recursion into dependency installs;
`Outcome.div` models its divergence. -/
def install (env : Env) :
    Nat → ArtifactWithSource → String → Option CatalogRepoConfig → Store → Outcome InstallResult
  | 0, _, _, _, _ => .div
  | n + 1, artifact, installRoot, repoConfig, st =>
    match installBody env n artifact installRoot repoConfig st with
    | .thrown e st1 tr1 =>
      .ret { success := false, artifact := artifact, path := "", error := some e } st1 tr1
    | o => o
  termination_by n _ _ _ _ => (n, 0, 0)

/-- The body of `install` inside the try: reject an existing installation,
resolve dependencies, compute the target path (throwing without a
workspace root), handle a conflict at it, then install the dependencies
and the artifact. -/
def installBody (env : Env) (n : Nat) (artifact : ArtifactWithSource) (installRoot : String)
    (repoConfig : Option CatalogRepoConfig) (st : Store) : Outcome InstallResult :=
  match getInstallation st.installations artifact.catalogId artifact.id with
  | some _ => .thrown "Artifact already installed. Use update instead." st []
  | none =>
    let ctx : ResolveCtx := ⟨st.artifacts, st.installations, env.searchMatch⟩
    match resolveDependencies ctx (resolveFuel ctx artifact) artifact with
    | none => .div
    | some (.error e) => .thrown e st []
    | some (.ok deps) =>
      match env.workspaceRoot with
      | none => .thrown "No workspace folder open" st []
      | some wsRoot =>
        let targetPath := getInstallPath env wsRoot artifact installRoot
        if fsHas st targetPath then
          match env.conflictChoice artifact.name targetPath with
          | none =>
            .ret { success := false, artifact := artifact, path := targetPath,
                   error := some "Installation cancelled" } st []
          | some resolution =>
            match resolution.action, resolution.newName with
            | .keep, _ =>
              .ret { success := false, artifact := artifact, path := targetPath,
                     error := some "Keeping existing file" } st []
            | .rename, some newName =>
              if newName = "" then
                -- a falsy newName falls through to the replace path
                installAfterConflict env n artifact installRoot repoConfig deps targetPath st
              else
                -- the rename branch returns performInstall directly,
                -- before the dependency loop runs
                let dir := pathDirname targetPath
                let ext := pathExtname targetPath
                performInstall env artifact (pathJoin dir (newName ++ ext)) repoConfig st
            | .rename, none =>
              installAfterConflict env n artifact installRoot repoConfig deps targetPath st
            | .replace, _ =>
              installAfterConflict env n artifact installRoot repoConfig deps targetPath st
        else
          installAfterConflict env n artifact installRoot repoConfig deps targetPath st
  termination_by (n, 3, 0)

/-- The tail of `install` after conflict handling: install each resolved
dependency first (their results are not inspected), then the artifact. -/
def installAfterConflict (env : Env) (n : Nat) (artifact : ArtifactWithSource)
    (installRoot : String) (repoConfig : Option CatalogRepoConfig)
    (deps : List ArtifactWithSource) (targetPath : String) (st : Store) :
    Outcome InstallResult :=
  match installList env n deps installRoot repoConfig st with
  | .div => .div
  | .thrown e st1 tr1 => .thrown e st1 tr1
  | .ret _ st1 tr1 =>
    match performInstall env artifact targetPath repoConfig st1 with
    | .div => .div
    | .thrown e st2 tr2 => .thrown e st2 (tr1 ++ tr2)
    | .ret r st2 tr2 => .ret r st2 (tr1 ++ tr2)
  termination_by (n, 2, 0)

/-- The dependency loop of `install`: `for (const dep of deps) await
this.install(dep, ...)` — each result is discarded. -/
def installList (env : Env) (n : Nat) :
    List ArtifactWithSource → String → Option CatalogRepoConfig → Store → Outcome Unit
  | [], _, _, st => .ret () st []
  | dep :: rest, installRoot, repoConfig, st =>
    match install env n dep installRoot repoConfig st with
    | .div => .div
    | .thrown e st1 tr1 => .thrown e st1 tr1
    | .ret _ st1 tr1 =>
      match installList env n rest installRoot repoConfig st1 with
      | .div => .div
      | .thrown e st2 tr2 => .thrown e st2 (tr1 ++ tr2)
      | .ret u st2 tr2 => .ret u st2 (tr1 ++ tr2)
  termination_by ds _ _ _ => (n, 1, ds.length)
end

/-! ## Concrete instances used by the theorems -/

/-- A minimal artifact with the given repo-relative path (remaining fields as
in the repository's URL-resolver test fixtures). -/
def sampleArtifact (p : String) : Artifact :=
  { id := "test-artifact", type := "prompt", name := "Test", description := "d",
    path := p, version := "1.0.0", author := none, category := "c", tags := ["t"],
    keywords := none, language := none, framework := none, useCase := none,
    difficulty := none, estimatedTime := none, compatibility := none,
    dependencies := [], supportingFiles := none, metadata := none }

/-- Catalog metadata with the given repository descriptor (remaining fields as
in the repository's URL-resolver test fixtures). -/
def sampleMetadata (t u : String) (b : Option String) : CatalogMetadata :=
  { id := "test", name := "Test", description := "Test catalog",
    author := { name := "Test", email := none, url := none },
    repository := { type := t, url := u, branch := b },
    license := "MIT", homepage := none, icon := none, tags := none, categories := none }

/-- A manifest artifact of the given id, type and dependency ids (the other
fields are fixed filler values). -/
def mkArtifact (i ty : String) (deps : List String) : Artifact :=
  { id := i, type := ty, name := i, description := "d", path := i ++ ".md", version := "1.0.0",
    author := none, category := "c", tags := ["t"], keywords := none, language := none,
    framework := none, useCase := none, difficulty := none, estimatedTime := none,
    compatibility := none, dependencies := deps, supportingFiles := none, metadata := none }

/-- A stored artifact row of the given catalog, id, type and dependencies. -/
def mkRow (catalogId i ty : String) (deps : List String) (src : String) : ArtifactWithSource :=
  { toArtifact := mkArtifact i ty deps, catalogId := catalogId, sourceUrl := src }

/-- The cyclic two-artifact catalog of the spec example: `a` depends on `b`. -/
def cycA : ArtifactWithSource := mkRow "cat" "a" "prompt" ["b"] "https://h/a.md"

/-- The other half of the cycle: `b` depends back on `a`. -/
def cycB : ArtifactWithSource := mkRow "cat" "b" "prompt" ["a"] "https://h/b.md"

/-- Resolution context over the cyclic catalog, nothing installed, global
search matching nothing. -/
def cycCtx : ResolveCtx := ⟨[cycA, cycB], [], fun _ _ => false⟩

/-- An acyclic catalog: `a` depends on `b`. -/
def acyA : ArtifactWithSource := mkRow "cat" "a" "prompt" ["b"] "https://h/a.md"

/-- An acyclic catalog: `b` has no dependencies. -/
def acyB : ArtifactWithSource := mkRow "cat" "b" "prompt" [] "https://h/b.md"

/-- Resolution context over the acyclic catalog. -/
def acyCtx : ResolveCtx := ⟨[acyA, acyB], [], fun _ _ => false⟩

/-- An artifact whose dependency id `zzz` resolves nowhere. -/
def missA : ArtifactWithSource := mkRow "cat" "a" "prompt" ["zzz"] "https://h/a.md"

/-- Resolution context in which `zzz` matches no artifact and no search hit. -/
def missCtx : ResolveCtx := ⟨[missA], [], fun _ _ => false⟩

/-- A minimal valid manifest document. -/
def docMin : Json := .obj [
  ("version", .str "1.0.0"),
  ("catalog", .obj [
    ("id", .str "cat"), ("name", .str "Cat"), ("description", .str "D"),
    ("author", .obj [("name", .str "A")]),
    ("repository", .obj [("type", .str "generic"), ("url", .str "https://x.dev")]),
    ("license", .str "MIT")]),
  ("artifacts", .arr [])]

/-- The catalog metadata `docMin` parses to. -/
def catMetaMin : CatalogMetadata :=
  { id := "cat", name := "Cat", description := "D",
    author := { name := "A", email := none, url := none },
    repository := { type := "generic", url := "https://x.dev", branch := none },
    license := "MIT", homepage := none, icon := none, tags := none, categories := none }

/-- The catalog `docMin` parses to. -/
def catMin : Catalog :=
  { schemaUrl := none, version := "1.0.0", catalog := catMetaMin,
    artifacts := [], profiles := none }

/-- A manifest violating the schema in several places: `version` and
`artifacts` missing, `catalog` a string. -/
def docBad : Json := .obj [("catalog", .str "x")]

/-- An environment whose fetch always yields the minimal valid manifest. -/
def env9 : Env :=
  { fetchJson := fun _ => .ok docMin, http := fun _ => .ok "", authErr := fun _ => none,
    conflictChoice := fun _ _ => none, writeErr := fun _ => none, workspaceRoot := none,
    searchMatch := fun _ _ => false, artifactPathsMap := fun _ => "",
    artifactExtsMap := fun _ => "" }

/-- A store holding one catalog row (id `a`, url `u1`). -/
def st9 : Store :=
  { catalogs := [⟨"a", "u1", true, catMin.catalog, "healthy", none⟩],
    artifacts := [], installations := [], fs := [] }

/-- An environment whose fetch always yields the invalid manifest. -/
def env10 : Env :=
  { env9 with fetchJson := fun _ => .ok docBad }

/-- An environment whose fetch always fails with a transport error. -/
def env7 : Env :=
  { env9 with fetchJson := fun _ => .error "network down" }

/-- The catalog row `addCatalog` stores for a config and fetched metadata. -/
def newCatalogRow (config : CatalogRepoConfig) (cmeta : CatalogMetadata) : CatRow :=
  { id := config.id, url := config.url, enabled := config.enabled,
    metadata := cmeta, status := "healthy", error := none }

/-- The empty store. -/
def stEmpty : Store := ⟨[], [], [], []⟩


/-- The C4 and C8 scenarios target artifact: id `t` in catalog `cat`, one
dependency `d`. -/
def tC4 : ArtifactWithSource := mkRow "cat" "t" "prompt" ["d"] "https://h/t.md"

/-- The dependency artifact of `tC4`: id `d`, no dependencies of its own. -/
def dC4 : ArtifactWithSource := mkRow "cat" "d" "prompt" [] "https://h/d.md"

/-- An environment whose conflict dialog always answers rename to `t2`:
downloads succeed, no auth or write errors, workspace root `/ws`. -/
def envC4 : Env :=
  { fetchJson := fun _ => .error "unused", http := fun _ => .ok "content",
    authErr := fun _ => none, conflictChoice := fun _ _ => some ⟨.rename, some "t2"⟩,
    writeErr := fun _ => none, workspaceRoot := some "/ws",
    searchMatch := fun _ _ => false, artifactPathsMap := fun _ => "sub",
    artifactExtsMap := fun _ => ".md" }

/-- A store holding `tC4` and `dC4`, nothing installed, and a file already
at the target path of `tC4`. -/
def stC4 : Store :=
  { catalogs := [], artifacts := [tC4, dC4], installations := [],
    fs := [("/ws/root/sub/t.md", "old")] }

/-- The store after the rename-conflict install of `tC4`: the renamed file
was written and only `t` recorded; `d` was never installed. -/
def stC4out : Store :=
  { catalogs := [], artifacts := [tC4, dC4],
    installations := [⟨"t", "cat", "1.0.0", "/ws/root/sub/t2.md"⟩],
    fs := [("/ws/root/sub/t.md", "old"), ("/ws/root/sub/t2.md", "content")] }

/-- The event trace of the rename-conflict install of `tC4`: only the
target artifact is downloaded, written and recorded. -/
def trC4 : List Event :=
  [.httpGet "https://h/t.md", .fileWrite "/ws/root/sub/t2.md",
   .recordInstall "cat" "t" "/ws/root/sub/t2.md"]

/-- A store in which `tC4` is already installed. -/
def stC5 : Store :=
  { catalogs := [], artifacts := [tC4, dC4],
    installations := [⟨"t", "cat", "1.0.0", "/x"⟩], fs := [] }

/-- The failed result the install catch produces for an already-installed
artifact: empty path, the thrown message as error text. -/
def rrC5 : InstallResult :=
  { success := false, artifact := tC4, path := "",
    error := some "Artifact already installed. Use update instead." }

/-- An environment whose conflict dialog always answers keep. -/
def envC6 : Env :=
  { fetchJson := fun _ => .error "unused", http := fun _ => .ok "content",
    authErr := fun _ => none, conflictChoice := fun _ _ => some ⟨.keep, none⟩,
    writeErr := fun _ => none, workspaceRoot := some "/ws",
    searchMatch := fun _ _ => false, artifactPathsMap := fun _ => "sub",
    artifactExtsMap := fun _ => ".md" }

/-- A store holding `tC4` and `dC4` with an empty filesystem: no conflict
arises at any target path. -/
def stNoF : Store :=
  { catalogs := [], artifacts := [tC4, dC4], installations := [], fs := [] }

/-- The store after installing the dependency `dC4` alone. -/
def stD : Store :=
  { catalogs := [], artifacts := [tC4, dC4],
    installations := [⟨"d", "cat", "1.0.0", "/ws/root/sub/d.md"⟩],
    fs := [("/ws/root/sub/d.md", "content")] }

/-- The store after installing `dC4` and then `tC4`. -/
def stTD : Store :=
  { catalogs := [], artifacts := [tC4, dC4],
    installations := [⟨"d", "cat", "1.0.0", "/ws/root/sub/d.md"⟩,
                      ⟨"t", "cat", "1.0.0", "/ws/root/sub/t.md"⟩],
    fs := [("/ws/root/sub/d.md", "content"), ("/ws/root/sub/t.md", "content")] }

/-- The success result of installing `tC4` at its unrenamed target path. -/
def rT : InstallResult :=
  { success := true, artifact := tC4, path := "/ws/root/sub/t.md", error := none }

/-- The event trace of installing the dependency `dC4` alone. -/
def trD : List Event :=
  [.httpGet "https://h/d.md", .fileWrite "/ws/root/sub/d.md",
   .recordInstall "cat" "d" "/ws/root/sub/d.md"]

/-- The event trace of the performInstall step of `tC4`. -/
def trT : List Event :=
  [.httpGet "https://h/t.md", .fileWrite "/ws/root/sub/t.md",
   .recordInstall "cat" "t" "/ws/root/sub/t.md"]

/-- An environment in which only the download of `dC4` fails. -/
def envC8 : Env :=
  { fetchJson := fun _ => .error "unused",
    http := fun u => if u == "https://h/d.md" then .error "boom" else .ok "content",
    authErr := fun _ => none, conflictChoice := fun _ _ => none,
    writeErr := fun _ => none, workspaceRoot := some "/ws",
    searchMatch := fun _ _ => false, artifactPathsMap := fun _ => "sub",
    artifactExtsMap := fun _ => ".md" }

/-- The failed result of installing `dC4` under `envC8`. -/
def rd8 : InstallResult :=
  { success := false, artifact := dC4, path := "/ws/root/sub/d.md", error := some "boom" }

/-- The store after installing `tC4` under `envC8`: the target is written
and recorded although its dependency failed and is absent. -/
def stT8 : Store :=
  { catalogs := [], artifacts := [tC4, dC4],
    installations := [⟨"t", "cat", "1.0.0", "/ws/root/sub/t.md"⟩],
    fs := [("/ws/root/sub/t.md", "content")] }


/-! ## Theorems -/

/-- The `"://"` separator of an `https` URL is first found at index 5,
whatever follows the scheme. -/
theorem idxOf_https (l : List Char) :
    idxOf? [':', '/', '/'] ('h' :: 't' :: 't' :: 'p' :: 's' :: ':' :: '/' :: '/' :: l) = some 5 := by
  simp [idxOf?, List.isPrefixOf]

/-- C1: `resolveArtifactUrl` satisfies the per-type layout rules: gitlab
appends the raw-path segment with the branch; github rewrites the
`github.com` host to the raw-content host with the branch defaulting to
`main`; a generic bare domain is always treated as a directory (for every
host string without `/`, `?` or `#`, the artifact path is appended to the
unchanged base URL), and the parent-directory rule fires only when a
non-root path segment of the URL ends in an extension-like suffix (as in the
final catalogs example). -/
theorem resolveArtifactUrl_per_type_layout :
    resolveArtifactUrl (sampleMetadata "gitlab" "https://gitlab.com/o/r" (some "main"))
        (sampleArtifact "a/b.md")
      = "https://gitlab.com/o/r/-/raw/main/a/b.md"
    ∧ resolveArtifactUrl (sampleMetadata "github" "https://github.com/o/r" none)
        (sampleArtifact "a/b.md")
      = "https://raw.githubusercontent.com/o/r/main/a/b.md"
    ∧ resolveArtifactUrl (sampleMetadata "generic" "https://x.dev" none)
        (sampleArtifact "c/d.md")
      = "https://x.dev/c/d.md"
    ∧ (∀ host p : String, host.data ≠ [] →
        (∀ c ∈ host.data, c ≠ '/' ∧ c ≠ '\\' ∧ c ≠ '?' ∧ c ≠ '#') →
        resolveGenericUrl ("https://" ++ host) p = "https://" ++ host ++ "/" ++ p)
    ∧ resolveArtifactUrl
        (sampleMetadata "generic" "https://example.com/catalogs/copilot-catalog.json" none)
        (sampleArtifact "artifacts/test.md")
      = "https://example.com/catalogs/artifacts/test.md" := by
  refine ⟨by decide, by decide, by decide, ?_, by decide⟩
  intro host p hne hc
  have hdata : ("https://" ++ host).data
      = 'h' :: 't' :: 't' :: 'p' :: 's' :: ':' :: '/' :: '/' :: host.data := by
    show "https://".data ++ host.data = _
    rfl
  have hmk : String.mk ("https://" ++ host).data = "https://" ++ host := rfl
  have hstrip : stripTrailSlash ("https://" ++ host).data = ("https://" ++ host).data := by
    unfold stripTrailSlash
    rw [if_neg]
    rw [hdata]
    show ("https://".data ++ host.data).getLast? ≠ some '/'
    rw [List.getLast?_append_of_ne_nil _ hne]
    intro h
    exact (hc _ (List.mem_of_mem_getLast? h)).1 rfl
  have hdropw :
      (host.data.dropWhile fun c => !(c == '/' || c == '\\' || c == '?' || c == '#')) = [] := by
    rw [List.dropWhile_eq_nil_iff]
    intro c hmem
    obtain ⟨h1, h2, h3, h4⟩ := hc c hmem
    simp [h1, h2, h3, h4]
  have hpath : urlPathname? ("https://" ++ host).data = some ['/'] := by
    rw [hdata]
    unfold urlPathname?
    rw [idxOf_https]
    simp only [List.drop_succ_cons, List.drop_zero]
    rw [hdropw]
  unfold resolveGenericUrl
  rw [hstrip, hmk]
  simp only [hpath]
  simp

/-- Witness for C1: the bare-domain conjunct applied at the concrete host
`x.dev` and path `c/d.md`. -/
theorem resolveArtifactUrl_per_type_layout_witness :
    resolveGenericUrl ("https://" ++ "x.dev") "c/d.md" = "https://" ++ "x.dev" ++ "/" ++ "c/d.md" :=
  resolveArtifactUrl_per_type_layout.2.2.2.1 "x.dev" "c/d.md" (by decide) (by decide)

/-- A filter by a stronger predicate that loses a witness is strictly
shorter. -/
theorem length_filter_lt {α : Type} (l : List α) (p q : α → Bool)
    (himp : ∀ a, q a = true → p a = true)
    (d : α) (hd : d ∈ l) (hp : p d = true) (hq : q d = false) :
    (l.filter q).length < (l.filter p).length := by
  induction l with
  | nil => simp at hd
  | cons x xs ih =>
    have hle : ∀ (ys : List α), (ys.filter q).length ≤ (ys.filter p).length := fun ys =>
      List.Sublist.length_le (List.monotone_filter_right ys himp)
    simp only [List.filter_cons]
    by_cases hx : d = x
    · subst hx
      rw [hq, hp]
      simp only [List.length_cons]
      exact Nat.lt_succ_of_le (hle xs)
    · have hdxs : d ∈ xs := by
        rcases List.mem_cons.mp hd with h | h
        · exact absurd h hx
        · exact h
      have hlt := ih hdxs
      cases hqx : q x
      · cases hpx : p x
        · simpa using hlt
        · simp only [Bool.false_eq_true, if_false, if_true, List.length_cons]
          omega
      · rw [himp x hqx]
        simp only [Bool.false_eq_true, if_false, if_true, List.length_cons]
        omega

/-- The unvisited-ids measure is antitone in the visited set. -/
theorem remaining_mono (all v v' : List String) (h : ∀ x ∈ v, x ∈ v') :
    remaining all v' ≤ remaining all v := by
  unfold remaining
  apply List.Sublist.length_le
  apply List.monotone_filter_right
  intro a ha
  simp only [decide_eq_true_eq] at ha ⊢
  exact fun hmem => ha (h a hmem)

/-- Visiting a fresh id from `all` strictly shrinks the measure. -/
theorem remaining_lt (all v : List String) (d : String) (hd : d ∈ all) (hnv : d ∉ v) :
    remaining all (v ++ [d]) < remaining all v := by
  unfold remaining
  apply length_filter_lt all _ _ _ d hd
  · simpa using hnv
  · simp
  · intro a ha
    simp only [decide_eq_true_eq] at ha ⊢
    exact fun hmem => ha (List.mem_append_left _ hmem)

/-- A hit of the composite-key lookup is a stored row of that catalog with
that id. -/
theorem getArtifact_spec {arts : List ArtifactWithSource} {c i : String} {a : ArtifactWithSource}
    (h : getArtifact arts c i = some a) :
    a ∈ arts ∧ a.catalogId = c ∧ a.id = i := by
  unfold getArtifact at h
  refine ⟨List.mem_of_find?_eq_some h, ?_⟩
  have := List.find?_some h
  simpa using this

/-- Every dependency the resolver finds is a stored artifact row. -/
theorem lookupDep_mem {ctx : ResolveCtx} {c i : String} {a : ArtifactWithSource}
    (h : lookupDep ctx c i = some a) : a ∈ ctx.artifacts := by
  unfold lookupDep at h
  cases hg : getArtifact ctx.artifacts c i with
  | some b => rw [hg] at h; cases h; exact (getArtifact_spec hg).1
  | none => rw [hg] at h; exact List.mem_of_find?_eq_some h

/-- Adequacy of the fuel: a run whose fuel exceeds the number of unvisited
ids never returns `none`, and on success only extends the visited set. -/
theorem resolveList_total (ctx : ResolveCtx) (cat : String) (all : List String)
    (Hall : ∀ a ∈ ctx.artifacts, ∀ d ∈ a.dependencies, d ∈ all) :
    ∀ n ds st, (∀ d ∈ ds, d ∈ all) → remaining all st.visited < n →
      ∃ r, resolveList ctx cat n ds st = some r ∧
        ∀ st', r = .ok st' → ∃ Δ, st'.visited = st.visited ++ Δ := by
  intro n
  induction n using Nat.strong_induction_on with
  | _ n ihn =>
  intro ds
  induction ds with
  | nil =>
    intro st _ _
    exact ⟨.ok st, by simp [resolveList], fun st' he => by cases he; exact ⟨[], by simp⟩⟩
  | cons depId rest ihds =>
    intro st h1 h2
    rcases n with _ | m
    · exact absurd h2 (by omega)
    simp only [resolveList]
    by_cases hv : depId ∈ st.visited
    · rw [if_pos hv]
      exact ihds st (fun d hd => h1 d (List.mem_cons_of_mem _ hd)) h2
    · rw [if_neg hv]
      cases hl : lookupDep ctx cat depId with
      | none =>
        simp only [hl]
        exact ⟨.error (depNotFoundMsg depId), rfl, fun st' he => by cases he⟩
      | some dep =>
        simp only [hl]
        have hdep := lookupDep_mem hl
        by_cases hinst : (getInstallation ctx.installations dep.catalogId dep.id).isSome
        · rw [if_pos hinst]
          have h2' : remaining all (st.visited ++ [depId]) < m + 1 := by
            have := remaining_mono all st.visited (st.visited ++ [depId])
              (fun x hx => List.mem_append_left _ hx)
            omega
          obtain ⟨r, hr, hext⟩ := ihds ⟨st.visited ++ [depId], st.deps⟩
            (fun d hd => h1 d (List.mem_cons_of_mem _ hd)) h2'
          refine ⟨r, hr, fun st' he => ?_⟩
          obtain ⟨Δ, hΔ⟩ := hext st' he
          exact ⟨depId :: Δ, by simpa using hΔ⟩
        · rw [if_neg hinst]
          have hsub : ∀ d ∈ dep.dependencies, d ∈ all := Hall dep hdep
          have hrem : remaining all (st.visited ++ [depId]) < m := by
            have := remaining_lt all st.visited depId (h1 depId (List.mem_cons_self _ _)) hv
            omega
          obtain ⟨r1, hr1, hext1⟩ := ihn m (by omega) dep.dependencies
            ⟨st.visited ++ [depId], st.deps⟩ hsub hrem
          cases r1 with
          | error e =>
            simp only [hr1]
            exact ⟨.error e, rfl, fun st' he => by cases he⟩
          | ok st2 =>
            simp only [hr1]
            obtain ⟨Δ1, hΔ1⟩ := hext1 st2 rfl
            have h2p : remaining all st2.visited < m + 1 := by
              have := remaining_mono all st.visited st2.visited
                (fun x hx => by rw [hΔ1]; exact List.mem_append_left _ (List.mem_append_left _ hx))
              omega
            obtain ⟨r2, hr2, hext2⟩ := ihds ⟨st2.visited, st2.deps ++ [dep]⟩
              (fun d hd => h1 d (List.mem_cons_of_mem _ hd)) h2p
            refine ⟨r2, hr2, fun st' he => ?_⟩
            obtain ⟨Δ2, hΔ2⟩ := hext2 st' he
            refine ⟨depId :: (Δ1 ++ Δ2), ?_⟩
            rw [hΔ2, hΔ1]
            simp

/-- Any error of the resolver loop is a dependency-not-found error naming an
id that resolves neither in the catalog nor via global search. -/
theorem resolveList_err (ctx : ResolveCtx) (cat : String) :
    ∀ n ds st e, resolveList ctx cat n ds st = some (.error e) →
      ∃ i, e = depNotFoundMsg i ∧ getArtifact ctx.artifacts cat i = none ∧
        ctx.artifacts.find? (ctx.searchMatch i) = none := by
  intro n
  induction n using Nat.strong_induction_on with
  | _ n ihn =>
  intro ds
  induction ds with
  | nil =>
    intro st e he
    simp [resolveList] at he
  | cons depId rest ihds =>
    intro st e he
    rcases n with _ | m
    · simp [resolveList] at he
    simp only [resolveList] at he
    by_cases hv : depId ∈ st.visited
    · rw [if_pos hv] at he
      exact ihds st e he
    · rw [if_neg hv] at he
      cases hl : lookupDep ctx cat depId with
      | none =>
        simp only [hl] at he
        have hge : getArtifact ctx.artifacts cat depId = none ∧
            ctx.artifacts.find? (ctx.searchMatch depId) = none := by
          unfold lookupDep at hl
          cases hg : getArtifact ctx.artifacts cat depId with
          | some b => rw [hg] at hl; cases hl
          | none => rw [hg] at hl; exact ⟨rfl, hl⟩
        cases he
        exact ⟨depId, rfl, hge.1, hge.2⟩
      | some dep =>
        simp only [hl] at he
        by_cases hinst : (getInstallation ctx.installations dep.catalogId dep.id).isSome
        · rw [if_pos hinst] at he
          exact ihds _ e he
        · rw [if_neg hinst] at he
          cases hr : resolveList ctx cat m dep.dependencies ⟨st.visited ++ [depId], st.deps⟩ with
          | none => rw [hr] at he; cases he
          | some r1 =>
            rw [hr] at he
            cases r1 with
            | error e1 =>
              simp at he
              subst he
              exact ihn m (by omega) dep.dependencies _ _ hr
            | ok st2 => exact ihds _ e he

/-- Splitting `l ++ [y]` around a distinguished element. -/
theorem append_singleton_cases {α : Type} {l l₁ l₂ : List α} {x y : α}
    (h : l ++ [y] = l₁ ++ x :: l₂) :
    (l₁ = l ∧ x = y ∧ l₂ = []) ∨ ∃ l₂', l = l₁ ++ x :: l₂' ∧ l₂ = l₂' ++ [y] := by
  rcases List.eq_nil_or_concat l₂ with rfl | ⟨l₂', z, rfl⟩
  · left
    have hlen : l.length = l₁.length := by
      have := congrArg List.length h
      simp at this
      omega
    obtain ⟨rfl, h2⟩ := List.append_inj h hlen
    have : y = x := by injection h2
    exact ⟨rfl, this.symm, rfl⟩
  · right
    have h' : l ++ [y] = (l₁ ++ x :: l₂') ++ [z] := by
      rw [h]
      simp [List.concat_eq_append]
    have hlen : l.length = (l₁ ++ x :: l₂').length := by
      have := congrArg List.length h'
      simp at this ⊢
      omega
    obtain ⟨he1, he2⟩ := List.append_inj h' hlen
    have hyz : y = z := by injection he2
    exact ⟨l₂', he1, by rw [hyz]; simp [List.concat_eq_append]⟩

/-- The main invariant of the resolver loop: when every id resolves in the
dependent's catalog under its own id and the dependency graph is acyclic,
the loop succeeds, freshly visited ids are reachable from the processed ids,
pushed artifacts are fresh, uninstalled, stored rows, and the invariant
`RInv` is preserved. -/
theorem resolveList_sound (ctx : ResolveCtx) (cat : String) (all : List String)
    (Hall : ∀ a ∈ ctx.artifacts, ∀ d ∈ a.dependencies, d ∈ all)
    (Hidf : ∀ i ∈ all, (getArtifact ctx.artifacts cat i).isSome = true)
    (Hacyc : ∀ i, ¬ Relation.TransGen (Edge ctx cat) i i) :
    ∀ n ds st S, (∀ d ∈ ds, d ∈ all) → remaining all st.visited < n →
      RInv ctx cat st S →
      ∃ st', resolveList ctx cat n ds st = some (.ok st') ∧
        RStep ctx cat ds st st' ∧ RInv ctx cat st' S := by
  intro n
  induction n using Nat.strong_induction_on with
  | _ n ihn =>
  intro ds
  induction ds with
  | nil =>
    intro st S _ _ hinv
    exact ⟨st, by simp [resolveList],
      ⟨⟨[], by simp, by simp, by simp⟩, ⟨[], by simp, by simp⟩, by simp⟩, hinv⟩
  | cons depId rest ihds =>
    intro st S h1 h2 hinv
    rcases n with _ | m
    · exact absurd h2 (by omega)
    simp only [resolveList]
    by_cases hv : depId ∈ st.visited
    · rw [if_pos hv]
      obtain ⟨st', hrun, hstep, hinv'⟩ :=
        ihds st S (fun d hd => h1 d (List.mem_cons_of_mem _ hd)) h2 hinv
      refine ⟨st', hrun, ?_, hinv'⟩
      obtain ⟨Δ, hΔ, hfresh, hreach⟩ := hstep.visited_ext
      obtain ⟨Δd, hΔd, hd⟩ := hstep.deps_ext
      refine ⟨⟨Δ, hΔ, hfresh, fun v hvv => ?_⟩, ⟨Δd, hΔd, hd⟩, fun d hdm => ?_⟩
      · obtain ⟨d, hdmem, hrtg⟩ := hreach v hvv
        exact ⟨d, List.mem_cons_of_mem _ hdmem, hrtg⟩
      · rcases List.mem_cons.mp hdm with rfl | hdm'
        · rw [hΔ]; exact List.mem_append_left _ hv
        · exact hstep.processed d hdm'
    · rw [if_neg hv]
      have hin_all : depId ∈ all := h1 depId (List.mem_cons_self _ _)
      obtain ⟨dep, hga⟩ := Option.isSome_iff_exists.mp (Hidf depId hin_all)
      obtain ⟨hmem, hcat, hid⟩ := getArtifact_spec hga
      have hl : lookupDep ctx cat depId = some dep := by unfold lookupDep; rw [hga]
      simp only [hl]
      have hrestsub : ∀ d ∈ rest, d ∈ all := fun d hd => h1 d (List.mem_cons_of_mem _ hd)
      by_cases hinst : (getInstallation ctx.installations dep.catalogId dep.id).isSome
      · rw [if_pos hinst]
        have hInstdep : Inst ctx cat depId := by
          unfold Inst; rw [← hcat, ← hid]; exact hinst
        have hinv1 : RInv ctx cat ⟨st.visited ++ [depId], st.deps⟩ S :=
          { idsSub := fun a ha => List.mem_append_left _ (hinv.idsSub a ha)
            idsNodup := hinv.idsNodup
            visitedCases := by
              intro v hvv
              rcases List.mem_append.mp hvv with h | h
              · exact hinv.visitedCases v h
              · rw [List.mem_singleton.mp h]
                exact Or.inr (Or.inl hInstdep)
            stackSub := fun s hs => List.mem_append_left _ (hinv.stackSub s hs)
            ordered := hinv.ordered }
        have h2' : remaining all (st.visited ++ [depId]) < m + 1 := by
          have := remaining_mono all st.visited (st.visited ++ [depId])
            (fun x hx => List.mem_append_left _ hx)
          omega
        obtain ⟨st', hrun, hstep, hinv'⟩ := ihds ⟨st.visited ++ [depId], st.deps⟩ S hrestsub h2' hinv1
        refine ⟨st', hrun, ?_, hinv'⟩
        obtain ⟨Δ, hΔ, hfresh, hreach⟩ := hstep.visited_ext
        obtain ⟨Δd, hΔd, hd⟩ := hstep.deps_ext
        refine ⟨⟨depId :: Δ, ?_, ?_, ?_⟩, ⟨Δd, hΔd, fun a ha => ?_⟩, fun d hdm => ?_⟩
        · rw [hΔ]; simp
        · intro v hvv
          rcases List.mem_cons.mp hvv with rfl | hvd
          · exact hv
          · exact fun hcontra => hfresh v hvd (List.mem_append_left _ hcontra)
        · intro v hvv
          rcases List.mem_cons.mp hvv with rfl | hvd
          · exact ⟨_, List.mem_cons_self _ _, Relation.ReflTransGen.refl⟩
          · obtain ⟨d, hdm2, hrtg⟩ := hreach v hvd
            exact ⟨d, List.mem_cons_of_mem _ hdm2, hrtg⟩
        · obtain ⟨hA, hB, hC, hD⟩ := hd a ha
          exact ⟨hA, fun hx => hB (List.mem_append_left _ hx), hC, hD⟩
        · rcases List.mem_cons.mp hdm with rfl | hdm'
          · rw [hΔ]
            exact List.mem_append_left _ (List.mem_append_right _ (by simp))
          · exact hstep.processed d hdm'
      · rw [if_neg hinst]
        have hnotInst : ¬ Inst ctx cat depId := by
          unfold Inst; rw [← hcat, ← hid]; exact hinst
        have hK2 : ∀ x ∈ st.deps, depId ∉ x.dependencies := by
          intro x hx hdep_in
          obtain ⟨l₁, l₂, hsplit⟩ := List.append_of_mem hx
          rcases hinv.ordered l₁ x l₂ hsplit depId hdep_in with hc | hc | hc
          · obtain ⟨a, ha, haid⟩ := hc
            have hmem2 : a.id ∈ st.visited :=
              hinv.idsSub a (by rw [hsplit]; exact List.mem_append_left _ ha)
            rw [haid] at hmem2
            exact hv hmem2
          · exact hnotInst hc
          · exact hv (hinv.stackSub _ hc)
        have hinv1 : RInv ctx cat ⟨st.visited ++ [depId], st.deps⟩ (S ++ [depId]) :=
          { idsSub := fun a ha => List.mem_append_left _ (hinv.idsSub a ha)
            idsNodup := hinv.idsNodup
            visitedCases := by
              intro v hvv
              rcases List.mem_append.mp hvv with h | h
              · rcases hinv.visitedCases v h with hc | hc | hc
                · exact Or.inl hc
                · exact Or.inr (Or.inl hc)
                · exact Or.inr (Or.inr (List.mem_append_left _ hc))
              · exact Or.inr (Or.inr (List.mem_append_right _ h))
            stackSub := by
              intro s hs
              rcases List.mem_append.mp hs with h | h
              · exact List.mem_append_left _ (hinv.stackSub s h)
              · exact List.mem_append_right _ h
            ordered := by
              intro l₁ x l₂ hsplit d hd
              rcases hinv.ordered l₁ x l₂ hsplit d hd with hc | hc | hc
              · exact Or.inl hc
              · exact Or.inr (Or.inl hc)
              · exact Or.inr (Or.inr (List.mem_append_left _ hc)) }
        have hrem1 : remaining all (st.visited ++ [depId]) < m := by
          have := remaining_lt all st.visited depId hin_all hv
          omega
        obtain ⟨st2, hrun2, hstep2, hinv2⟩ := ihn m (by omega) dep.dependencies
          ⟨st.visited ++ [depId], st.deps⟩ (S ++ [depId]) (Hall dep hmem) hrem1 hinv1
        simp only [hrun2]
        obtain ⟨Δv2, hΔv2, hfresh2, hreach2⟩ := hstep2.visited_ext
        obtain ⟨Δd2, hΔd2, hd2⟩ := hstep2.deps_ext
        have hvisited_in : depId ∈ st2.visited := by
          rw [hΔv2]
          exact List.mem_append_left _ (List.mem_append_right _ (by simp))
        have hdep_edge : ∀ d ∈ dep.dependencies, Edge ctx cat depId d :=
          fun d hd => ⟨dep, hga, hd⟩
        have hreach2' : ∀ v ∈ Δv2, Relation.ReflTransGen (Edge ctx cat) depId v := by
          intro v hvv
          obtain ⟨d, hdm, hrtg⟩ := hreach2 v hvv
          exact Relation.ReflTransGen.head (hdep_edge d hdm) hrtg
        have hK3 : ∀ x ∈ Δd2, depId ∉ x.dependencies := by
          intro x hx hdep_in
          obtain ⟨hxa, hxb, hxc, hxd⟩ := hd2 x hx
          have hxΔ : x.id ∈ Δv2 := by
            rw [hΔv2] at hxa
            rcases List.mem_append.mp hxa with h | h
            · exact absurd h hxb
            · exact h
          exact Hacyc depId (Relation.TransGen.tail' (hreach2' _ hxΔ) ⟨x, hxd, hdep_in⟩)
        have hK1 : ∀ a ∈ st2.deps, a.id ≠ depId := by
          intro a ha
          rw [hΔd2] at ha
          rcases List.mem_append.mp ha with h | h
          · intro he
            exact hv (he ▸ hinv.idsSub a h)
          · intro he
            obtain ⟨_, hb, _, _⟩ := hd2 a h
            exact hb (he ▸ List.mem_append_right _ (by simp))
        have hinv3 : RInv ctx cat ⟨st2.visited, st2.deps ++ [dep]⟩ S :=
          { idsSub := by
              intro a ha
              rcases List.mem_append.mp ha with h | h
              · exact hinv2.idsSub a h
              · rw [List.mem_singleton.mp h, hid]
                exact hvisited_in
            idsNodup := by
              show ((st2.deps ++ [dep]).map fun a => a.id).Nodup
              rw [List.map_append]
              rw [List.nodup_append]
              refine ⟨hinv2.idsNodup, by simp, ?_⟩
              intro x hx hy
              simp only [List.map_cons, List.map_nil, List.mem_singleton] at hy
              obtain ⟨a, ha, haid⟩ := List.mem_map.mp hx
              rw [hy, hid] at haid
              exact hK1 a ha haid
            visitedCases := by
              intro v hvv
              rcases hinv2.visitedCases v hvv with hc | hc | hc
              · obtain ⟨a, ha, haid⟩ := hc
                exact Or.inl ⟨a, List.mem_append_left _ ha, haid⟩
              · exact Or.inr (Or.inl hc)
              · rcases List.mem_append.mp hc with h | h
                · exact Or.inr (Or.inr h)
                · rw [List.mem_singleton.mp h]
                  exact Or.inl ⟨dep, List.mem_append_right _ (by simp), hid⟩
            stackSub := by
              intro s hs
              rw [hΔv2]
              exact List.mem_append_left _ (List.mem_append_left _ (hinv.stackSub s hs))
            ordered := by
              intro l₁ x l₂ hsplit d hd
              rcases append_singleton_cases hsplit with ⟨hl₁, hx, hl₂⟩ | ⟨l₂', hsp, hl₂⟩
              · subst hx
                have hdv : d ∈ st2.visited := hstep2.processed d hd
                rcases hinv2.visitedCases d hdv with hc | hc | hc
                · obtain ⟨a, ha, haid⟩ := hc
                  exact Or.inl ⟨a, hl₁ ▸ ha, haid⟩
                · exact Or.inr (Or.inl hc)
                · rcases List.mem_append.mp hc with h | h
                  · exact Or.inr (Or.inr h)
                  · rw [List.mem_singleton.mp h] at hd
                    exact absurd (Relation.TransGen.single (hdep_edge depId hd)) (Hacyc depId)
              · rcases hinv2.ordered l₁ x l₂' hsp d hd with hc | hc | hc
                · exact Or.inl hc
                · exact Or.inr (Or.inl hc)
                · rcases List.mem_append.mp hc with h | h
                  · exact Or.inr (Or.inr h)
                  · exfalso
                    have hxin : x ∈ st2.deps := by
                      rw [hsp]
                      exact List.mem_append_right _ (List.mem_cons_self _ _)
                    rw [List.mem_singleton.mp h] at hd
                    rw [hΔd2] at hxin
                    rcases List.mem_append.mp hxin with hh | hh
                    · exact hK2 x hh hd
                    · exact hK3 x hh hd }
        have hrem3 : remaining all st2.visited < m + 1 := by
          have hsub : ∀ x ∈ st.visited, x ∈ st2.visited := by
            intro x hx
            rw [hΔv2]
            exact List.mem_append_left _ (List.mem_append_left _ hx)
          have := remaining_mono all st.visited st2.visited hsub
          omega
        obtain ⟨st', hrun3, hstep3, hinv'⟩ := ihds ⟨st2.visited, st2.deps ++ [dep]⟩ S hrestsub hrem3 hinv3
        refine ⟨st', hrun3, ?_, hinv'⟩
        obtain ⟨Δ3, hΔ3, hfresh3, hreach3⟩ := hstep3.visited_ext
        obtain ⟨Δd3, hΔd3, hd3⟩ := hstep3.deps_ext
        have hst2sup : ∀ x ∈ st.visited, x ∈ st2.visited := by
          intro x hx
          rw [hΔv2]
          exact List.mem_append_left _ (List.mem_append_left _ hx)
        have hst'sup : ∀ x ∈ st2.visited, x ∈ st'.visited := by
          intro x hx
          rw [hΔ3]
          exact List.mem_append_left _ hx
        refine ⟨⟨depId :: (Δv2 ++ Δ3), ?_, ?_, ?_⟩,
          ⟨Δd2 ++ ([dep] ++ Δd3), ?_, ?_⟩, fun d hdm => ?_⟩
        · rw [hΔ3]
          show st2.visited ++ Δ3 = st.visited ++ (depId :: (Δv2 ++ Δ3))
          rw [hΔv2]
          simp
        · intro v hvv
          rcases List.mem_cons.mp hvv with rfl | hvd
          · exact hv
          rcases List.mem_append.mp hvd with h | h
          · exact fun hc => hfresh2 v h (List.mem_append_left _ hc)
          · exact fun hc => hfresh3 v h (hst2sup v hc)
        · intro v hvv
          rcases List.mem_cons.mp hvv with rfl | hvd
          · exact ⟨_, List.mem_cons_self _ _, Relation.ReflTransGen.refl⟩
          rcases List.mem_append.mp hvd with h | h
          · exact ⟨depId, List.mem_cons_self _ _, hreach2' v h⟩
          · obtain ⟨d, hdm2, hrtg⟩ := hreach3 v h
            exact ⟨d, List.mem_cons_of_mem _ hdm2, hrtg⟩
        · rw [hΔd3]
          show (st2.deps ++ [dep]) ++ Δd3 = st.deps ++ (Δd2 ++ ([dep] ++ Δd3))
          rw [hΔd2]
          simp
        · intro a ha
          rcases List.mem_append.mp ha with h | h
          · obtain ⟨hA, hB, hC, hD⟩ := hd2 a h
            refine ⟨hst'sup _ hA, ?_, hC, hD⟩
            exact fun hc => hB (List.mem_append_left _ hc)
          rcases List.mem_append.mp h with h' | h'
          · rw [List.mem_singleton.mp h']
            refine ⟨hst'sup _ (hid ▸ hvisited_in), hid ▸ hv, hid ▸ hnotInst, hid ▸ hga⟩
          · obtain ⟨hA, hB, hC, hD⟩ := hd3 a h'
            exact ⟨hA, fun hc => hB (hst2sup _ hc), hC, hD⟩
        · rcases List.mem_cons.mp hdm with rfl | hdm'
          · exact hst'sup _ hvisited_in
          · exact hstep3.processed d hdm'

/-- A list is pairwise-related when every split relates its pivot to every
later element. -/
theorem pairwise_of_splits {α : Type} {R : α → α → Prop} (l : List α)
    (h : ∀ l₁ x l₂, l = l₁ ++ x :: l₂ → ∀ y ∈ l₂, R x y) : l.Pairwise R := by
  induction l with
  | nil => exact List.Pairwise.nil
  | cons x xs ih =>
    refine List.Pairwise.cons (h [] x xs rfl) (ih ?_)
    intro l₁ z l₂ hsp y hy
    exact h (x :: l₁) z l₂ (by rw [hsp]; rfl) y hy

/-- A rank function decreasing along dependency edges rules out dependency
cycles. -/
theorem rank_acyclic (ctx : ResolveCtx) (cat : String) (rank : String → Nat)
    (h : ∀ i j, Edge ctx cat i j → rank j < rank i) :
    ∀ i, ¬ Relation.TransGen (Edge ctx cat) i i := by
  have hlt : ∀ i j, Relation.TransGen (Edge ctx cat) i j → rank j < rank i := by
    intro i j htg
    induction htg with
    | single h1 => exact h _ _ h1
    | tail _ h1 ih => exact lt_trans (h _ _ h1) ih
  exact fun i hi => lt_irrefl _ (hlt i i hi)

/-- With the standard fuel, `resolveDependencies` never exhausts it: the
termination argument for every finite dependency graph. -/
theorem resolveDependencies_total :
    ∀ (ctx : ResolveCtx) (artifact : ArtifactWithSource),
      resolveDependencies ctx (resolveFuel ctx artifact) artifact ≠ none := by
  intro ctx artifact
  unfold resolveDependencies
  by_cases hemp : artifact.dependencies.isEmpty
  · simp [hemp]
  · rw [if_neg hemp]
    have Hall : ∀ a ∈ ctx.artifacts, ∀ d ∈ a.dependencies, d ∈ allDepIds ctx artifact := by
      intro a ha d hd
      unfold allDepIds
      rw [List.mem_dedup]
      apply List.mem_append_right
      rw [List.mem_flatten]
      exact ⟨a.dependencies, List.mem_map_of_mem _ ha, hd⟩
    have hsub : ∀ d ∈ artifact.dependencies, d ∈ allDepIds ctx artifact := by
      intro d hd
      unfold allDepIds
      rw [List.mem_dedup]
      exact List.mem_append_left _ hd
    have hrem : remaining (allDepIds ctx artifact) [] < resolveFuel ctx artifact := by
      unfold resolveFuel remaining
      have := List.length_filter_le (fun i => decide (i ∉ ([] : List String))) (allDepIds ctx artifact)
      omega
    obtain ⟨r, hr, _⟩ := resolveList_total ctx artifact.catalogId (allDepIds ctx artifact) Hall
      (resolveFuel ctx artifact) artifact.dependencies ⟨[], []⟩ hsub hrem
    rw [hr]
    cases r <;> simp

/-- On an acyclic graph whose dependency ids all resolve in the dependent's
catalog under their own id, `resolveDependencies` succeeds with a
duplicate-free, installed-free, post-ordered list. -/
theorem resolveDependencies_acyclic_run :
    ∀ (ctx : ResolveCtx) (artifact : ArtifactWithSource),
      (∀ i ∈ allDepIds ctx artifact,
        (getArtifact ctx.artifacts artifact.catalogId i).isSome = true) →
      (∀ i, ¬ Relation.TransGen (Edge ctx artifact.catalogId) i i) →
      ∃ l, resolveDependencies ctx (resolveFuel ctx artifact) artifact = some (.ok l)
        ∧ (l.map fun a => a.id).Nodup
        ∧ (∀ a ∈ l, getInstallation ctx.installations a.catalogId a.id = none)
        ∧ List.Pairwise (fun x y => y.id ∉ x.dependencies) l := by
  intro ctx artifact Hidf Hacyc
  unfold resolveDependencies
  by_cases hemp : artifact.dependencies.isEmpty
  · exact ⟨[], by simp [hemp], by simp, by simp, by simp⟩
  · rw [if_neg hemp]
    have Hall : ∀ a ∈ ctx.artifacts, ∀ d ∈ a.dependencies, d ∈ allDepIds ctx artifact := by
      intro a ha d hd
      unfold allDepIds
      rw [List.mem_dedup]
      apply List.mem_append_right
      rw [List.mem_flatten]
      exact ⟨a.dependencies, List.mem_map_of_mem _ ha, hd⟩
    have hsub : ∀ d ∈ artifact.dependencies, d ∈ allDepIds ctx artifact := by
      intro d hd
      unfold allDepIds
      rw [List.mem_dedup]
      exact List.mem_append_left _ hd
    have hrem : remaining (allDepIds ctx artifact) [] < resolveFuel ctx artifact := by
      unfold resolveFuel remaining
      have := List.length_filter_le (fun i => decide (i ∉ ([] : List String)))
        (allDepIds ctx artifact)
      omega
    have hinv0 : RInv ctx artifact.catalogId ⟨[], []⟩ [] :=
      { idsSub := by simp
        idsNodup := by simp
        visitedCases := by simp
        stackSub := by simp
        ordered := by
          intro l₁ x l₂ hsp
          exact absurd hsp (by simp) }
    obtain ⟨st', hrun, hstep, hinv'⟩ := resolveList_sound ctx artifact.catalogId
      (allDepIds ctx artifact) Hall Hidf Hacyc (resolveFuel ctx artifact)
      artifact.dependencies ⟨[], []⟩ [] hsub hrem hinv0
    rw [hrun]
    obtain ⟨Δd, hΔd, hd⟩ := hstep.deps_ext
    have hdeps : st'.deps = Δd := by simpa using hΔd
    have hnoinst : ∀ a ∈ st'.deps, getInstallation ctx.installations a.catalogId a.id = none := by
      intro a ha
      obtain ⟨_, _, hni, hget⟩ := hd a (by rw [← hdeps]; exact ha)
      obtain ⟨_, hcat, _⟩ := getArtifact_spec hget
      rw [hcat]
      exact Option.not_isSome_iff_eq_none.mp hni
    refine ⟨st'.deps, rfl, hinv'.idsNodup, hnoinst, ?_⟩
    apply pairwise_of_splits
    intro l₁ x l₂ hsp y hy
    intro hyx
    rcases hinv'.ordered l₁ x l₂ hsp y.id hyx with hc | hc | hc
    · obtain ⟨a, ha, haid⟩ := hc
      have hnd := hinv'.idsNodup
      rw [hsp, List.map_append, List.map_cons] at hnd
      obtain ⟨_, _, hdisj⟩ := List.nodup_append.mp hnd
      have hm1 : y.id ∈ l₁.map (fun a => a.id) := by
        rw [← haid]
        exact List.mem_map_of_mem _ ha
      have hm2 : y.id ∈ (x.id :: l₂.map (fun a => a.id)) :=
        List.mem_cons_of_mem _ (List.mem_map_of_mem _ hy)
      exact hdisj hm1 hm2
    · -- y is in the list, so not installed
      have := hnoinst y (by rw [hsp]; exact List.mem_append_right _ (List.mem_cons_of_mem _ hy))
      unfold Inst at hc
      have hcy : y.catalogId = artifact.catalogId := by
        obtain ⟨_, _, _, hget⟩ := hd y (by rw [← hdeps, hsp]; exact List.mem_append_right _ (List.mem_cons_of_mem _ hy))
        exact (getArtifact_spec hget).2.1
      rw [← hcy] at hc
      rw [this] at hc
      simp at hc
    · simp at hc

/-- Any error of `resolveDependencies` names a missing dependency id. -/
theorem resolveDependencies_error_names_missing :
    ∀ (ctx : ResolveCtx) (artifact : ArtifactWithSource) (fuel : Nat) (e : String),
      resolveDependencies ctx fuel artifact = some (.error e) →
      ∃ i, e = depNotFoundMsg i ∧ getArtifact ctx.artifacts artifact.catalogId i = none
        ∧ ctx.artifacts.find? (ctx.searchMatch i) = none := by
  intro ctx artifact fuel e he
  unfold resolveDependencies at he
  by_cases hemp : artifact.dependencies.isEmpty
  · simp [hemp] at he
  · rw [if_neg hemp] at he
    cases hr : resolveList ctx artifact.catalogId fuel artifact.dependencies ⟨[], []⟩ with
    | none => rw [hr] at he; cases he
    | some r =>
      rw [hr] at he
      cases r with
      | ok st => simp at he
      | error e1 =>
        simp at he
        subst he
        exact resolveList_err ctx artifact.catalogId fuel artifact.dependencies ⟨[], []⟩ e1 hr

/-- The acyclic sample catalog admits a rank function decreasing along
edges. -/
theorem acy_rank : ∀ i j, Edge acyCtx "cat" i j →
    (fun s => if s = "a" then 1 else 0 : String → Nat) j
      < (fun s => if s = "a" then 1 else 0 : String → Nat) i := by
  intro i j ⟨a, hga, hj⟩
  obtain ⟨hmem, hcat, hid⟩ := getArtifact_spec hga
  have hmem' : a = acyA ∨ a = acyB := by simpa [acyCtx] using hmem
  rcases hmem' with rfl | rfl
  · have hj' : j = "b" := by simpa [acyA, mkRow, mkArtifact] using hj
    have hi' : i = "a" := by simpa [acyA, mkRow, mkArtifact] using hid.symm
    subst hj'; subst hi'
    decide
  · simp [acyB, mkRow, mkArtifact] at hj

/-- Resolving the artifact with the unresolvable dependency id fails with
the dependency-not-found error naming it. -/
theorem missA_err :
    resolveDependencies missCtx (resolveFuel missCtx missA) missA
      = some (.error "Dependency not found: zzz") := by
  have h2 : resolveFuel missCtx missA = 2 := by rfl
  rw [h2]
  simp [resolveDependencies, resolveList, lookupDep, getArtifact, getInstallation,
    depNotFoundMsg, missCtx, missA, mkRow, mkArtifact]

/-- C2: for every finite dependency graph — every resolution context and
target artifact, cyclic graphs included — `resolveDependencies` with the
standard fuel terminates (it never exhausts the fuel that models the
unbounded JS recursion), and on the cyclic catalog `a → b → a` it returns
the list `[a, b]`: each artifact involved in the cycle appears exactly
once. -/
theorem resolveDependencies_terminates_and_cycle_once :
    (∀ (ctx : ResolveCtx) (artifact : ArtifactWithSource),
        resolveDependencies ctx (resolveFuel ctx artifact) artifact ≠ none)
    ∧ resolveDependencies cycCtx (resolveFuel cycCtx cycA) cycA = some (.ok [cycA, cycB])
    ∧ ([cycA, cycB].map fun a => a.id) = ["a", "b"] := by
  refine ⟨resolveDependencies_total, ?_, by decide⟩
  have h3 : resolveFuel cycCtx cycA = 3 := by rfl
  rw [h3]
  simp [resolveDependencies, resolveList, lookupDep, getArtifact, getInstallation,
    depNotFoundMsg, cycCtx, cycA, cycB, mkRow, mkArtifact]

/-- C3 counterexample: on the cyclic catalog `a → b → a` every dependency id
resolves, yet the returned list `[a, b]` is not post-ordered — the returned
prerequisite `b` of the returned artifact `a` follows it, refuting the
claim as stated. -/
theorem resolveDependencies_postorder_counterexample :
    resolveDependencies cycCtx (resolveFuel cycCtx cycA) cycA = some (.ok [cycA, cycB])
    ∧ (∀ i ∈ allDepIds cycCtx cycA,
        (getArtifact cycCtx.artifacts cycA.catalogId i).isSome = true)
    ∧ cycB.id ∈ cycA.dependencies
    ∧ ¬ List.Pairwise (fun x y => y.id ∉ x.dependencies) [cycA, cycB] := by
  refine ⟨?_, by decide, by decide, ?_⟩
  · have h3 : resolveFuel cycCtx cycA = 3 := by rfl
    rw [h3]
    simp [resolveDependencies, resolveList, lookupDep, getArtifact, getInstallation,
      depNotFoundMsg, cycCtx, cycA, cycB, mkRow, mkArtifact]
  · intro hp
    have := List.rel_of_pairwise_cons hp (List.mem_singleton_self _)
    exact this (by decide)

/-- C3 (amended): for every artifact whose dependency graph is acyclic and
whose dependency ids all resolve in the dependent's catalog under their own
id, `resolveDependencies` returns an ordered list in which each artifact
appears exactly once, every returned artifact's own returned prerequisites
precede it, and already-installed dependencies are excluded; and whenever it
fails, the error names a dependency id that matches no artifact in the
dependent's catalog and none via global search. -/
theorem resolveDependencies_postorder_amended :
    (∀ (ctx : ResolveCtx) (artifact : ArtifactWithSource),
      (∀ i ∈ allDepIds ctx artifact,
        (getArtifact ctx.artifacts artifact.catalogId i).isSome = true) →
      (∀ i, ¬ Relation.TransGen (Edge ctx artifact.catalogId) i i) →
      ∃ l, resolveDependencies ctx (resolveFuel ctx artifact) artifact = some (.ok l)
        ∧ (l.map fun a => a.id).Nodup
        ∧ (∀ a ∈ l, getInstallation ctx.installations a.catalogId a.id = none)
        ∧ List.Pairwise (fun x y => y.id ∉ x.dependencies) l)
    ∧ (∀ (ctx : ResolveCtx) (artifact : ArtifactWithSource) (fuel : Nat) (e : String),
        resolveDependencies ctx fuel artifact = some (.error e) →
        ∃ i, e = depNotFoundMsg i ∧ getArtifact ctx.artifacts artifact.catalogId i = none
          ∧ ctx.artifacts.find? (ctx.searchMatch i) = none) :=
  ⟨resolveDependencies_acyclic_run, resolveDependencies_error_names_missing⟩

/-- Witness for C3 (amended): the acyclic catalog `a → b` satisfies the
hypotheses and resolves in post-order; the catalog with the unresolvable
dependency id `zzz` fails with an error naming it. -/
theorem resolveDependencies_postorder_amended_witness :
    (∃ l, resolveDependencies acyCtx (resolveFuel acyCtx acyA) acyA = some (.ok l)
      ∧ (l.map fun a => a.id).Nodup
      ∧ (∀ a ∈ l, getInstallation acyCtx.installations a.catalogId a.id = none)
      ∧ List.Pairwise (fun x y => y.id ∉ x.dependencies) l)
    ∧ (∃ i, "Dependency not found: zzz" = depNotFoundMsg i
        ∧ getArtifact missCtx.artifacts missA.catalogId i = none
        ∧ missCtx.artifacts.find? (missCtx.searchMatch i) = none) :=
  ⟨resolveDependencies_postorder_amended.1 acyCtx acyA (by decide)
      (rank_acyclic acyCtx "cat" (fun s => if s = "a" then 1 else 0) acy_rank),
    resolveDependencies_postorder_amended.2 missCtx missA
      (resolveFuel missCtx missA) _ missA_err⟩

/-- C7: when auth resolution succeeds but fetching or validating the remote
manifest fails, `refreshCatalog` leaves the artifact rows, installations and
file system unchanged, sets the catalog row's status to `error` with the
failure message in its `error` field, and re-raises the error to the
caller. -/
theorem refreshCatalog_failure_records_and_rethrows :
    ∀ (env : Env) (catalogId : String) (config : CatalogRepoConfig) (st : Store) (msg : String),
      env.authErr config.id = none →
      fetchCatalog env config.url = .error msg →
      refreshCatalog env catalogId config st
        = .thrown msg
            { st with catalogs := st.catalogs.map fun r =>
                if r.id == catalogId then { r with status := "error", error := some msg } else r }
            [] := by
  intro env catalogId config st msg hauth hfetch
  have hmap :
      (st.catalogs.map fun r =>
        if r.id == catalogId then { r with status := "updating" } else r).map
        (fun r => if r.id == catalogId then { r with status := "error", error := some msg } else r)
      = st.catalogs.map fun r =>
          if r.id == catalogId then { r with status := "error", error := some msg } else r := by
    rw [List.map_map]
    apply List.map_congr_left
    intro r _
    by_cases hr : (r.id == catalogId) = true
    · simp [Function.comp, hr]
    · simp [Function.comp, hr]
  unfold refreshCatalog
  rw [hauth, hfetch]
  simp only [hmap]

/-- Witness for C7: a transport failure on the stored catalog `a`. -/
theorem refreshCatalog_failure_records_and_rethrows_witness :
    refreshCatalog env7 "a" ⟨"a", "u1", true⟩ st9
      = .thrown "network down"
          { st9 with catalogs := st9.catalogs.map fun r =>
              if r.id == "a" then { r with status := "error", error := some "network down" } else r }
          [] :=
  refreshCatalog_failure_records_and_rethrows env7 "a" ⟨"a", "u1", true⟩ st9 "network down" rfl rfl

/-- C9 counterexample: adding a catalog whose id `a` duplicates the stored
catalog `a` (url `u1`) raises no error at all — it returns normally and the
stored row now carries the new url `u2`; the original row is gone. -/
theorem addCatalog_duplicate_counterexample :
    addCatalog env9 ⟨"a", "u2", true⟩ st9
      = .ret () { st9 with catalogs := [⟨"a", "u2", true, catMin.catalog, "healthy", none⟩] } []
    ∧ ∀ e st tr, addCatalog env9 ⟨"a", "u2", true⟩ st9 ≠ .thrown e st tr := by
  refine ⟨rfl, ?_⟩
  intro e st tr h
  rw [show addCatalog env9 ⟨"a", "u2", true⟩ st9
    = .ret () { st9 with catalogs := [⟨"a", "u2", true, catMin.catalog, "healthy", none⟩] } []
    from rfl] at h
  exact Outcome.noConfusion h

/-- C9 (amended): adding a catalog whose id or url duplicates an
already-stored catalog surfaces no conflict error: the `INSERT OR REPLACE`
silently deletes every conflicting row (cascading to its artifacts and
installations) and stores the new row, which becomes the unique row under
that id and that url. -/
theorem addCatalog_upsert_semantics :
    ∀ (env : Env) (config : CatalogRepoConfig) (st : Store) (catalog : Catalog)
      (rows : List ArtifactWithSource),
      env.authErr config.id = none →
      fetchCatalog env config.url = .ok catalog →
      insertArtifactRows config.id catalog.catalog catalog.artifacts
        (st.artifacts.filter fun a =>
          !(((st.catalogs.filter fun r => r.id == config.id || r.url == config.url).map
              fun r => r.id).contains a.catalogId)) = .ok rows →
      ∃ st', addCatalog env config st = .ret () st' []
        ∧ newCatalogRow config catalog.catalog ∈ st'.catalogs
        ∧ (∀ r ∈ st'.catalogs, r.id = config.id → r = newCatalogRow config catalog.catalog)
        ∧ (∀ r ∈ st'.catalogs, r.url = config.url → r = newCatalogRow config catalog.catalog)
        ∧ st'.artifacts = rows := by
  intro env config st catalog rows hauth hfetch hins
  unfold addCatalog
  rw [hauth, hfetch]
  simp only [hins]
  refine ⟨_, rfl, ?_, ?_, ?_, rfl⟩
  · exact List.mem_append_right _ (by simp [newCatalogRow])
  · intro r hr hid
    rcases List.mem_append.mp hr with h | h
    · have := List.of_mem_filter h
      simp only [Bool.not_eq_true', Bool.or_eq_false_iff] at this
      exact absurd (by simpa using hid) (by simpa using this.1)
    · simpa [newCatalogRow] using List.mem_singleton.mp h
  · intro r hr hurl
    rcases List.mem_append.mp hr with h | h
    · have := List.of_mem_filter h
      simp only [Bool.not_eq_true', Bool.or_eq_false_iff] at this
      exact absurd (by simpa using hurl) (by simpa using this.2)
    · simpa [newCatalogRow] using List.mem_singleton.mp h

/-- Witness for C9 (amended): replacing the stored catalog `a`. -/
theorem addCatalog_upsert_semantics_witness :
    ∃ st', addCatalog env9 ⟨"a", "u2", true⟩ st9 = .ret () st' []
      ∧ newCatalogRow ⟨"a", "u2", true⟩ catMin.catalog ∈ st'.catalogs
      ∧ (∀ r ∈ st'.catalogs, r.id = "a" → r = newCatalogRow ⟨"a", "u2", true⟩ catMin.catalog)
      ∧ (∀ r ∈ st'.catalogs, r.url = "u2" → r = newCatalogRow ⟨"a", "u2", true⟩ catMin.catalog)
      ∧ st'.artifacts = [] :=
  addCatalog_upsert_semantics env9 ⟨"a", "u2", true⟩ st9 catMin [] rfl rfl rfl

/-- C10 counterexample: a manifest violating the schema at `version`,
`catalog` and `artifacts` fails with the single joined diagnostic
`Invalid catalog format: Required, Expected object, received string,
Required`, which does not name the offending fields `version` or
`artifacts` (zod's default messages carry no field path and only the
messages are joined). -/
theorem fetchCatalog_fields_absent_counterexample :
    vCatalog docBad = .error [⟨["version"], "Required"⟩,
      ⟨["catalog"], "Expected object, received string"⟩, ⟨["artifacts"], "Required"⟩]
    ∧ fetchCatalog env10 "u"
      = .error "Invalid catalog format: Required, Expected object, received string, Required"
    ∧ containsSub "version".data
        "Invalid catalog format: Required, Expected object, received string, Required".data = false
    ∧ containsSub "artifacts".data
        "Invalid catalog format: Required, Expected object, received string, Required".data = false :=
  ⟨rfl, rfl, by decide, by decide⟩

/-- C10 (amended): when the fetched manifest violates the schema, the fetch
fails with a single diagnostic string joining the message of every
violation — not just the first — without the offending field paths, and no
part of the document is accepted: `addCatalog` throws that diagnostic and
leaves the store unchanged. -/
theorem fetchCatalog_joins_every_message :
    ∀ (env : Env) (url : String) (doc : Json) (issues : List Issue),
      env.fetchJson url = .ok doc →
      vCatalog doc = .error issues →
      fetchCatalog env url
        = .error ("Invalid catalog format: "
            ++ String.intercalate ", " (issues.map fun i => i.message))
      ∧ (∀ (config : CatalogRepoConfig) (st : Store),
          env.authErr config.id = none → config.url = url →
          addCatalog env config st
            = .thrown ("Invalid catalog format: "
                ++ String.intercalate ", " (issues.map fun i => i.message)) st []) := by
  intro env url doc issues hf hv
  have hfc : fetchCatalog env url
      = .error ("Invalid catalog format: "
          ++ String.intercalate ", " (issues.map fun i => i.message)) := by
    unfold fetchCatalog
    rw [hf]
    simp only [hv]
  refine ⟨hfc, ?_⟩
  intro config st hauth hurl
  unfold addCatalog
  rw [hauth, hurl, hfc]

/-- Witness for C10 (amended): the three-violation manifest. -/
theorem fetchCatalog_joins_every_message_witness :
    fetchCatalog env10 "u"
      = .error ("Invalid catalog format: "
          ++ String.intercalate ", "
            (([⟨["version"], "Required"⟩, ⟨["catalog"], "Expected object, received string"⟩,
               ⟨["artifacts"], "Required"⟩] : List Issue).map fun i => i.message))
    ∧ addCatalog env10 ⟨"c10", "u", true⟩ stEmpty
        = .thrown ("Invalid catalog format: "
            ++ String.intercalate ", "
              (([⟨["version"], "Required"⟩, ⟨["catalog"], "Expected object, received string"⟩,
                 ⟨["artifacts"], "Required"⟩] : List Issue).map fun i => i.message)) stEmpty [] := by
  obtain ⟨h1, h2⟩ := fetchCatalog_joins_every_message env10 "u" docBad
    [⟨["version"], "Required"⟩, ⟨["catalog"], "Expected object, received string"⟩,
     ⟨["artifacts"], "Required"⟩] rfl rfl
  exact ⟨h1, h2 ⟨"c10", "u", true⟩ stEmpty rfl rfl⟩


/-- performInstall: a returned failure carries error text, and a returned
success has written the target file and recorded the installation, both
visible in the trace. -/
theorem performInstall_ret (env : Env) (artifact : ArtifactWithSource)
    (targetPath : String) (repoConfig : Option CatalogRepoConfig) (st : Store) :
    ∀ r st2 tr, performInstall env artifact targetPath repoConfig st = .ret r st2 tr →
      (r.success = false → r.error.isSome)
      ∧ (r.success = true → Event.fileWrite targetPath ∈ tr
          ∧ Event.recordInstall artifact.catalogId artifact.id targetPath ∈ tr) := by
  intro r st2 tr h
  unfold performInstall at h
  split at h
  · exact Outcome.noConfusion h
  · split at h
    · cases h; simp
    · split at h
      · cases h; simp
      · split at h
        · exact Outcome.noConfusion h
        · cases h; simp
        · cases h; simp

/-- installAfterConflict: a returned failure carries error text. -/
theorem installAfterConflict_err (env : Env) (n : Nat) (a : ArtifactWithSource)
    (root : String) (cfg : Option CatalogRepoConfig) (deps : List ArtifactWithSource)
    (tp : String) (st : Store) :
    ∀ r st' tr, installAfterConflict env n a root cfg deps tp st = .ret r st' tr →
      r.success = false → r.error.isSome := by
  intro r st' tr h
  unfold installAfterConflict at h
  repeat' split at h
  all_goals
    first
    | exact Outcome.noConfusion h
    | (rename_i hp
       cases h
       exact (performInstall_ret env a tp cfg _ _ _ _ hp).1)

/-- installBody: a returned failure carries error text. -/
theorem installBody_err (env : Env) (n : Nat) (a : ArtifactWithSource)
    (root : String) (cfg : Option CatalogRepoConfig) (st : Store) :
    ∀ r st' tr, installBody env n a root cfg st = .ret r st' tr →
      r.success = false → r.error.isSome := by
  intro r st' tr h
  unfold installBody at h
  simp only [] at h
  repeat' split at h
  all_goals
    first
    | exact Outcome.noConfusion h
    | (cases h; intro _; rfl)
    | exact installAfterConflict_err env n a root cfg _ _ st r st' tr h
    | exact (performInstall_ret env a _ cfg st r st' tr h).1

/-- install never produces a thrown outcome: its catch converts every
thrown error into a failed result. -/
theorem install_no_throw (env : Env) (n : Nat) (a : ArtifactWithSource)
    (root : String) (cfg : Option CatalogRepoConfig) (st : Store) :
    ∀ e st' tr, install env n a root cfg st ≠ .thrown e st' tr := by
  intro e st' tr h
  cases n with
  | zero => simp [install] at h
  | succ n =>
    rcases hb : installBody env n a root cfg st with _ | ⟨e1, st1, tr1⟩ | ⟨r1, st1, tr1⟩ <;>
      simp [install, hb] at h

/-- install: a returned failure carries error text. -/
theorem install_err (env : Env) (n : Nat) (a : ArtifactWithSource)
    (root : String) (cfg : Option CatalogRepoConfig) (st : Store) :
    ∀ r st' tr, install env n a root cfg st = .ret r st' tr →
      r.success = false → r.error.isSome := by
  intro r st' tr h
  cases n with
  | zero => simp [install] at h
  | succ n =>
    rcases hb : installBody env n a root cfg st with _ | ⟨e1, st1, tr1⟩ | ⟨r1, st1, tr1⟩ <;>
      simp only [install, hb] at h
    · exact Outcome.noConfusion h
    · cases h; intro _; rfl
    · cases h
      exact installBody_err env n a root cfg st _ _ _ hb

/-- When install reaches the dependency loop (no conflict, or one resolved
by replace or by a falsy rename), it runs installList on the resolved
dependencies first and performInstall on the target afterwards, and the
traces concatenate in that order. -/
theorem install_past_conflict (env : Env) (n : Nat) (a : ArtifactWithSource)
    (root : String) (cfg : Option CatalogRepoConfig) (st st1 st2 : Store)
    (deps : List ArtifactWithSource) (wsRoot : String) (r : InstallResult)
    (tr1 tr2 : List Event)
    (hins : getInstallation st.installations a.catalogId a.id = none)
    (hres : resolveDependencies ⟨st.artifacts, st.installations, env.searchMatch⟩
        (resolveFuel ⟨st.artifacts, st.installations, env.searchMatch⟩ a) a = some (.ok deps))
    (hws : env.workspaceRoot = some wsRoot)
    (hpast : fsHas st (getInstallPath env wsRoot a root) = false ∨
      ∃ res, env.conflictChoice a.name (getInstallPath env wsRoot a root) = some res ∧
        (res.action = .replace ∨ res = ⟨.rename, none⟩ ∨ res = ⟨.rename, some ""⟩))
    (hlist : installList env n deps root cfg st = .ret () st1 tr1)
    (hperf : performInstall env a (getInstallPath env wsRoot a root) cfg st1 = .ret r st2 tr2) :
    install env (n + 1) a root cfg st = .ret r st2 (tr1 ++ tr2) := by
  have hb : installBody env n a root cfg st =
      installAfterConflict env n a root cfg deps (getInstallPath env wsRoot a root) st := by
    unfold installBody
    simp only [hins, hres, hws]
    rcases hpast with hfs | ⟨res, hc, hcase⟩
    · simp [hfs]
    · rcases hfs : fsHas st (getInstallPath env wsRoot a root) with _ | _
      · simp [hfs]
      · obtain ⟨act, nm⟩ := res
        simp only [hfs, if_true, hc]
        rcases hcase with h1 | h1 | h1
        · cases h1
          rfl
        · cases h1
          rfl
        · cases h1
          simp
  have hac : installAfterConflict env n a root cfg deps (getInstallPath env wsRoot a root) st =
      .ret r st2 (tr1 ++ tr2) := by
    unfold installAfterConflict
    simp only [hlist, hperf]
  simp [install, hb, hac]

/-- C4 counterexample: with a conflict at the target path resolved by
rename to `t2`, the dependency set of `tC4` resolves to `[dC4]`, yet the
install succeeds at the renamed path while `dC4` is never downloaded,
written or recorded: the rename branch returns before the dependency
loop. -/
theorem install_rename_skips_dependencies_counterexample :
    resolveDependencies ⟨stC4.artifacts, stC4.installations, envC4.searchMatch⟩
        (resolveFuel ⟨stC4.artifacts, stC4.installations, envC4.searchMatch⟩ tC4) tC4
      = some (.ok [dC4]) ∧
    envC4.conflictChoice tC4.name "/ws/root/sub/t.md" = some ⟨.rename, some "t2"⟩ ∧
    install envC4 2 tC4 "root" none stC4 =
      .ret { success := true, artifact := tC4, path := "/ws/root/sub/t2.md", error := none }
        stC4out trC4 ∧
    getInstallation stC4out.installations dC4.catalogId dC4.id = none ∧
    Event.httpGet dC4.sourceUrl ∉ trC4 := by
  refine ⟨?_, rfl, ?_, ?_, ?_⟩
  · simp [resolveDependencies, resolveList, resolveFuel, allDepIds, lookupDep,
      getArtifact, getInstallation, stC4, tC4, dC4, mkRow, mkArtifact, envC4,
      depNotFoundMsg]
  · simp [install, installBody, installAfterConflict, installList, performInstall,
      installSupportingStep, supportingLoop, recordInstallation, fsWrite, fsHas,
      getInstallPath, pathJoin, pathDirname, pathExtname, lastIdxOf?, getInstallation,
      resolveDependencies, resolveList, resolveFuel, allDepIds, lookupDep, getArtifact,
      depNotFoundMsg, envC4, stC4, stC4out, tC4, dC4, mkRow, mkArtifact, trC4]
  · simp [getInstallation, stC4out, dC4, mkRow, mkArtifact]
  · simp [trC4, dC4, mkRow, mkArtifact]

/-- C4 (amended): for every install that reaches the dependency loop — no
conflict occurred, or the caller resolved it with replace or with a falsy
rename name — the resolved dependencies are all installed (installList)
before the target artifact is downloaded, written and recorded
(performInstall), whose write and record events the trace tail carries on
success. A rename with a nonempty new name skips the dependency loop, so
it is excluded. -/
theorem install_deps_run_before_target (env : Env) (n : Nat) (a : ArtifactWithSource)
    (root : String) (cfg : Option CatalogRepoConfig) (st st1 st2 : Store)
    (deps : List ArtifactWithSource) (wsRoot tp : String) (r : InstallResult)
    (tr1 tr2 : List Event)
    (hins : getInstallation st.installations a.catalogId a.id = none)
    (hres : resolveDependencies ⟨st.artifacts, st.installations, env.searchMatch⟩
        (resolveFuel ⟨st.artifacts, st.installations, env.searchMatch⟩ a) a = some (.ok deps))
    (hws : env.workspaceRoot = some wsRoot)
    (htp : tp = getInstallPath env wsRoot a root)
    (hpast : fsHas st tp = false ∨
      ∃ res, env.conflictChoice a.name tp = some res ∧
        (res.action = .replace ∨ res = ⟨.rename, none⟩ ∨ res = ⟨.rename, some ""⟩))
    (hlist : installList env n deps root cfg st = .ret () st1 tr1)
    (hperf : performInstall env a tp cfg st1 = .ret r st2 tr2) :
    install env (n + 1) a root cfg st = .ret r st2 (tr1 ++ tr2) ∧
      (r.success = true →
        Event.fileWrite tp ∈ tr2 ∧
        Event.recordInstall a.catalogId a.id tp ∈ tr2) := by
  subst htp
  exact ⟨install_past_conflict env n a root cfg st st1 st2 deps wsRoot r tr1 tr2
      hins hres hws hpast hlist hperf,
    fun hs => (performInstall_ret env a _ cfg st1 r st2 tr2 hperf).2 hs⟩

/-- C4 witness: with no conflict, installing `tC4` first installs the
dependency `dC4` and then the target, whose write and record events close
the trace. -/
theorem install_deps_run_before_target_witness :
    install envC6 2 tC4 "root" none stNoF = .ret rT stTD (trD ++ trT) ∧
      (rT.success = true →
        Event.fileWrite "/ws/root/sub/t.md" ∈ trT ∧
        Event.recordInstall tC4.catalogId tC4.id "/ws/root/sub/t.md" ∈ trT) :=
  install_deps_run_before_target envC6 1 tC4 "root" none stNoF stD stTD [dC4] "/ws"
    "/ws/root/sub/t.md" rT trD trT
    (by simp [getInstallation, stNoF, tC4, mkRow, mkArtifact])
    (by simp [resolveDependencies, resolveList, resolveFuel, allDepIds, lookupDep,
        getArtifact, getInstallation, stNoF, tC4, dC4, mkRow, mkArtifact, envC6,
        depNotFoundMsg])
    rfl
    (by simp [getInstallPath, pathJoin, envC6, tC4, mkRow, mkArtifact])
    (Or.inl (by simp [fsHas, stNoF]))
    (by simp [installList, install, installBody, installAfterConflict, performInstall,
        installSupportingStep, supportingLoop, recordInstallation, fsWrite, fsHas,
        getInstallPath, pathJoin, getInstallation, resolveDependencies, resolveList,
        resolveFuel, allDepIds, lookupDep, getArtifact, depNotFoundMsg, envC6,
        stNoF, stD, tC4, dC4, mkRow, mkArtifact, trD])
    (by simp [performInstall, installSupportingStep, supportingLoop, recordInstallation,
        fsWrite, fsHas, envC6, stD, stTD, rT, tC4, dC4, mkRow, mkArtifact, trT])

/-- C5: for every fuel, artifact, install root, repo config and store,
install never produces a thrown outcome — its try/catch converts every
thrown error into a result — and every returned failure carries error
text. -/
theorem install_never_throws_failures_structured (env : Env) (n : Nat)
    (a : ArtifactWithSource) (root : String) (cfg : Option CatalogRepoConfig)
    (st : Store) :
    (∀ e st' tr, install env n a root cfg st ≠ .thrown e st' tr) ∧
    (∀ r st' tr, install env n a root cfg st = .ret r st' tr →
      r.success = false → r.error.isSome) :=
  ⟨install_no_throw env n a root cfg st, install_err env n a root cfg st⟩

/-- C5 witness: installing an already-installed artifact returns the
structured failure `rrC5` (success false, the thrown message as error
text) instead of throwing. -/
theorem install_never_throws_failures_structured_witness :
    install envC4 1 tC4 "root" none stC5 = .ret rrC5 stC5 [] ∧ rrC5.error.isSome :=
  ⟨by simp [install, installBody, getInstallation, stC5, rrC5, tC4, mkRow, mkArtifact],
   (install_never_throws_failures_structured envC4 1 tC4 "root" none stC5).2 rrC5 stC5 []
     (by simp [install, installBody, getInstallation, stC5, rrC5, tC4, mkRow, mkArtifact])
     rfl⟩

/-- C6: when a file exists at the computed target path and the conflict is
resolved as keep, install returns a non-success result carrying the
message `Keeping existing file`, the store (filesystem and installations
table) is returned unchanged, and the trace is empty: nothing was
downloaded, written or recorded. -/
theorem install_keep_unchanged (env : Env) (n : Nat) (a : ArtifactWithSource)
    (root : String) (cfg : Option CatalogRepoConfig) (st : Store)
    (deps : List ArtifactWithSource) (wsRoot : String) (nm : Option String)
    (hins : getInstallation st.installations a.catalogId a.id = none)
    (hres : resolveDependencies ⟨st.artifacts, st.installations, env.searchMatch⟩
        (resolveFuel ⟨st.artifacts, st.installations, env.searchMatch⟩ a) a = some (.ok deps))
    (hws : env.workspaceRoot = some wsRoot)
    (hfs : fsHas st (getInstallPath env wsRoot a root) = true)
    (hc : env.conflictChoice a.name (getInstallPath env wsRoot a root) = some ⟨.keep, nm⟩) :
    install env (n + 1) a root cfg st =
      .ret { success := false, artifact := a, path := getInstallPath env wsRoot a root,
             error := some "Keeping existing file" } st [] := by
  have hb : installBody env n a root cfg st =
      .ret { success := false, artifact := a, path := getInstallPath env wsRoot a root,
             error := some "Keeping existing file" } st [] := by
    unfold installBody
    simp [hins, hres, hws, hfs, hc]
  simp [install, hb]

/-- C6 witness: with a file at the target path of `tC4` and a keep answer,
install returns the keep failure and the store `stC4` unchanged with an
empty trace. -/
theorem install_keep_unchanged_witness :
    install envC6 1 tC4 "root" none stC4 =
      .ret { success := false, artifact := tC4,
             path := getInstallPath envC6 "/ws" tC4 "root",
             error := some "Keeping existing file" } stC4 [] :=
  install_keep_unchanged envC6 0 tC4 "root" none stC4 [dC4] "/ws" none
    (by simp [getInstallation, stC4, tC4, mkRow, mkArtifact])
    (by simp [resolveDependencies, resolveList, resolveFuel, allDepIds, lookupDep,
          getArtifact, getInstallation, stC4, tC4, dC4, mkRow, mkArtifact, envC6,
          depNotFoundMsg])
    rfl
    (by simp [fsHas, stC4, getInstallPath, pathJoin, envC6, tC4, mkRow, mkArtifact])
    rfl

/-- C8 counterexample: under `envC8` the dependency `dC4` of `tC4` fails to
install (download error `boom`), yet installing `tC4` succeeds: its main
file is written, its installation recorded, and `dC4` remains absent — the
dependency failure does not abort the dependent. -/
theorem install_dep_failure_counterexample :
    tC4.dependencies = ["d"] ∧
    install envC8 1 dC4 "root" none stNoF = .ret rd8 stNoF [.httpGet "https://h/d.md"] ∧
    rd8.success = false ∧
    install envC8 2 tC4 "root" none stNoF =
      .ret rT stT8 (Event.httpGet "https://h/d.md" :: trT) ∧
    rT.success = true ∧
    Event.fileWrite "/ws/root/sub/t.md" ∈ (Event.httpGet "https://h/d.md" :: trT) ∧
    getInstallation stT8.installations dC4.catalogId dC4.id = none := by
  refine ⟨rfl, ?_, rfl, ?_, rfl, by simp [trT], ?_⟩
  · simp [install, installBody, installAfterConflict, installList, performInstall,
      installSupportingStep, supportingLoop, recordInstallation, fsWrite, fsHas,
      getInstallPath, pathJoin, getInstallation, resolveDependencies, resolveList,
      resolveFuel, allDepIds, lookupDep, getArtifact, depNotFoundMsg, envC8,
      stNoF, rd8, tC4, dC4, mkRow, mkArtifact]
  · simp [install, installBody, installAfterConflict, installList, performInstall,
      installSupportingStep, supportingLoop, recordInstallation, fsWrite, fsHas,
      getInstallPath, pathJoin, getInstallation, resolveDependencies, resolveList,
      resolveFuel, allDepIds, lookupDep, getArtifact, depNotFoundMsg, envC8,
      stNoF, stT8, rT, trT, tC4, dC4, mkRow, mkArtifact]
  · simp [getInstallation, stT8, dC4, mkRow, mkArtifact]

/-- C8 (amended): when the single resolved dependency of an artifact
installs with a failed result, the install of the dependent is not
aborted: the dependency loop discards the failure, performInstall still
runs on the target, and on success the target file write and installation
record appear in the trace after the dependency events. -/
theorem install_dep_failure_no_abort (env : Env) (n : Nat) (a dep : ArtifactWithSource)
    (root : String) (cfg : Option CatalogRepoConfig) (st st1 st2 : Store)
    (wsRoot tp : String) (rd r : InstallResult) (trd tr2 : List Event)
    (hins : getInstallation st.installations a.catalogId a.id = none)
    (hres : resolveDependencies ⟨st.artifacts, st.installations, env.searchMatch⟩
        (resolveFuel ⟨st.artifacts, st.installations, env.searchMatch⟩ a) a = some (.ok [dep]))
    (hws : env.workspaceRoot = some wsRoot)
    (htp : tp = getInstallPath env wsRoot a root)
    (hnc : fsHas st tp = false)
    (hdep : install env n dep root cfg st = .ret rd st1 trd)
    (_hfail : rd.success = false)
    (hperf : performInstall env a tp cfg st1 = .ret r st2 tr2) :
    install env (n + 1) a root cfg st = .ret r st2 (trd ++ tr2) ∧
      (r.success = true →
        Event.fileWrite tp ∈ tr2 ∧
        Event.recordInstall a.catalogId a.id tp ∈ tr2) := by
  subst htp
  have hlist : installList env n [dep] root cfg st = .ret () st1 trd := by
    simp [installList, hdep]
  exact ⟨install_past_conflict env n a root cfg st st1 st2 [dep] wsRoot r trd tr2
      hins hres hws (Or.inl hnc) hlist hperf,
    fun hs => (performInstall_ret env a _ cfg st1 r st2 tr2 hperf).2 hs⟩

/-- C8 witness: the failed install of `dC4` under `envC8` does not abort
the install of `tC4`, which returns success with its write and record
events in the trace tail. -/
theorem install_dep_failure_no_abort_witness :
    install envC8 2 tC4 "root" none stNoF =
      .ret rT stT8 ([Event.httpGet "https://h/d.md"] ++ trT) ∧
      (rT.success = true →
        Event.fileWrite "/ws/root/sub/t.md" ∈ trT ∧
        Event.recordInstall tC4.catalogId tC4.id "/ws/root/sub/t.md" ∈ trT) :=
  install_dep_failure_no_abort envC8 1 tC4 dC4 "root" none stNoF stNoF stT8 "/ws"
    "/ws/root/sub/t.md" rd8 rT [Event.httpGet "https://h/d.md"] trT
    (by simp [getInstallation, stNoF, tC4, mkRow, mkArtifact])
    (by simp [resolveDependencies, resolveList, resolveFuel, allDepIds, lookupDep,
        getArtifact, getInstallation, stNoF, tC4, dC4, mkRow, mkArtifact, envC8,
        depNotFoundMsg])
    rfl
    (by simp [getInstallPath, pathJoin, envC8, tC4, mkRow, mkArtifact])
    (by simp [fsHas, stNoF])
    (by simp [install, installBody, installAfterConflict, installList, performInstall,
        installSupportingStep, supportingLoop, recordInstallation, fsWrite, fsHas,
        getInstallPath, pathJoin, getInstallation, resolveDependencies, resolveList,
        resolveFuel, allDepIds, lookupDep, getArtifact, depNotFoundMsg, envC8,
        stNoF, rd8, tC4, dC4, mkRow, mkArtifact])
    rfl
    (by simp [performInstall, installSupportingStep, supportingLoop, recordInstallation,
        fsWrite, fsHas, envC8, stNoF, stT8, rT, tC4, dC4, mkRow, mkArtifact, trT])


end ArtifactHub
